import Mathlib

/-
Shallow embedding of the MongoDB ingestion client in src/mongo.py
(class MongoDBClient): id allocation for new run documents, the single-use
overwrite path, the best-effort save, metric merging and source-file
deduplication, together with the captured-output marker substitution.

Modelling conventions:
* `V` is the opaque type of store values (configs, hosts, results, ...);
  the code never inspects them.  `σ υ τ` are the element types of the
  three metric arrays (steps / values / timestamps).
* Machine-level collections become association lists; `find_one` /
  `update_one` act on the first matching document, matching pymongo.
* `datetime.strptime` is kept as the identity on the time strings (the
  claims never look inside timestamps).
* Store faults are injected explicitly: each round of the id-allocation
  loop is given the documents concurrently inserted by other writers
  plus a flag for a persistence failure other than a duplicate key, and
  each `save` call is given an AutoReconnect flag.  Encoding failures
  (pymongo.errors.InvalidDocument) are decided by an `enc` predicate on
  the payload.
* The handlers for InvalidDocument execute `raise ObserverError(...)`,
  but `ObserverError` is neither defined nor imported anywhere in
  mongo.py, so the raise itself fails with a NameError; the embedding
  records this outcome as `ObsError.nameError`.
-/

namespace MongoSpec

/-- Error outcomes of the client, following section 7 of the spec plus the
outcomes the code actually produces.  `unserializable` is the
UnserializableEntry kind the spec promises; `nameError` is what the code's
`raise ObserverError(...)` actually does, since `ObserverError` is an
undefined name in mongo.py. -/
inductive ObsError
  | notFound
  | doubleOverwrite
  | unserializable
  | nameError
  | duplicateKey
  | otherFailure
  | missingSourceFile
deriving DecidableEq, Repr

/-- Result of an operation: normal return, a surfaced error, or `stalled`
when the environment schedule ran out while the id-allocation loop was
still retrying (the Python loop would still be running). -/
inductive Outcome (α : Type)
  | ok (a : α)
  | err (e : ObsError)
  | stalled
deriving DecidableEq, Repr

/-- The `sources` field of the experiment sub-document: the raw manifest of
(file name, md5) pairs from the input record, or the resolved list of
(file name, blob id) pairs written by save_sources. -/
inductive Sources
  | raw (l : List (String × String))
  | resolved (l : List (String × Nat))
deriving DecidableEq, Repr

/-- Experiment descriptor as it arrives in `run['experiment']`:
base_dir, the source manifest, and the remaining fields (name, ...)
which the client copies verbatim. -/
structure ExperimentIn (V : Type) where
  base_dir : String
  sources : List (String × String)
  rest : V
deriving DecidableEq, Repr

/-- Experiment descriptor as embedded in a run document. -/
structure ExperimentDoc (V : Type) where
  base_dir : String
  sources : Sources
  rest : V
deriving DecidableEq, Repr

/-- The external run record (`run` argument of finished_event): the fields
the code reads at lines 141-163 of mongo.py. -/
structure RunInput (V : Type) where
  experiment : ExperimentIn V
  command : V
  host : V
  start_time : String
  stop_time : String
  heartbeat : String
  meta : V
  status : V
  result : V
deriving DecidableEq, Repr

/-- A run document (the value part; the `_id` key is kept next to it):
exactly the fields written by the update at lines 139-157 of mongo.py. -/
structure RunDoc (V : Type) where
  experiment : ExperimentDoc V
  format : String
  command : V
  host : V
  start_time : String
  stop_time : String
  config : V
  meta : V
  status : V
  result : V
  resources : List V
  artifacts : List V
  captured_out : String
  info : List (String × Nat)
  heartbeat : String
deriving DecidableEq, Repr

/-- A GridFS blob: store-assigned id, virtual filename, md5 of the stored
content (GridFS computes it from the bytes), and the content itself. -/
structure Blob (V : Type) where
  id : Nat
  filename : String
  md5 : String
  content : V
deriving DecidableEq, Repr

/-- The GridFS state: stored blobs plus the generator for fresh ids. -/
structure FS (V : Type) where
  blobs : List (Blob V)
  next : Nat
deriving DecidableEq, Repr

/-- A metric document, keyed by (run_id, name); `oid` is the
store-generated document id reported as `upserted_id`.  `run_id` is the
value of `run_entry['_id']`, hence an `Option Int`. -/
structure MetricDoc (σ υ τ : Type) where
  oid : Nat
  run_id : Option Int
  name : String
  steps : List σ
  values : List υ
  timestamps : List τ
deriving DecidableEq, Repr

/-- One metric batch from the metrics mapping: the three equal-length
sequences pushed by the upsert at lines 178-183. -/
structure Batch (σ υ τ : Type) where
  steps : List σ
  values : List υ
  timestamps : List τ
deriving DecidableEq, Repr

/-- The shared document store: the runs collection, the metrics collection
(with its object-id generator `ctr`), and the GridFS blob store. -/
structure Store (V σ υ τ : Type) where
  runs : List (Int × RunDoc V)
  metrics : List (MetricDoc σ υ τ)
  fs : FS V
  ctr : Nat
deriving DecidableEq, Repr

/-- Client state: the fetched overwrite target (if any) and the current
`run_entry` (None until the first finished_event call).  The Python dict
aliasing between `self.overwrite` and `self.run_entry` on the overwrite
path is not observable through any claim and is not modelled. -/
structure Client (V : Type) where
  overwrite : Option (Int × RunDoc V)
  run_entry : Option (Option Int × RunDoc V)
deriving DecidableEq, Repr

/-- A partial update passed to `save`: the two field sets the code ever
passes ({'captured_out': ...} and {'info': ...}); both absent models the
empty-dict default argument. -/
structure PartData where
  captured_out : Option String
  info : Option (List (String × Nat))
deriving DecidableEq, Repr

/-- Payload of a store write, used to decide encodability: either a whole
run document or a partial field set. -/
inductive Payload (V : Type)
  | doc (d : RunDoc V)
  | part (p : PartData)
deriving DecidableEq

/-- Store events, used to express frame conditions (which operations a
call issued). -/
inductive Ev
  | insertAttempt (i : Option Int)
  | inserted (i : Int)
  | rejectedDoc
  | dupKeyEv (i : Int)
  | updateRun (i : Option Int)
  | reconnect
  | fsFind (p h : String)
  | fsPutEv (p : String)
  | metricUpsert (i : Option Int) (n : String) (created : Bool)
deriving DecidableEq, Repr

variable {V σ υ τ : Type}

/-- VERSION attribute of MongoDBClient. -/
def VERSION : String := "FileStorageObserver-0.0.1"

/-- str(_id) as interpolated into the replacement text; Python renders
None as "None". -/
def idToStr : Option Int → String
  | some i => toString i
  | none => "None"

/-- find_one on the runs collection by `_id`: first matching document. -/
def findRun (runs : List (Int × RunDoc V)) (i : Int) : Option (RunDoc V) :=
  match runs with
  | [] => none
  | (j, d) :: rest => if j == i then some d else findRun rest i

/-- Lookup by the (possibly absent) `_id` of the run entry; a query for
`{_id: None}` matches no stored run, since stored runs carry integer ids. -/
def findRunO (runs : List (Int × RunDoc V)) (j : Option Int) : Option (RunDoc V) :=
  match j with
  | none => none
  | some i => findRun runs i

/-- The ids present in the runs collection. -/
def idsOf (runs : List (Int × RunDoc V)) : List Int :=
  runs.map (fun r => r.1)

/-- Insert an element into a descending-sorted list. -/
def insDesc (x : Int) : List Int → List Int
  | [] => [x]
  | y :: ys => if y ≤ x then x :: y :: ys else y :: insDesc x ys

/-- Descending sort, the embedding of
`runs.find({}, {_id: 1}).sort("_id", DESCENDING)`. -/
def sortDesc : List Int → List Int
  | [] => []
  | x :: xs => insDesc x (sortDesc xs)

/-- Candidate id computation at lines 201-205 of mongo.py: descending sort,
take one, add 1; the `count_documents({}, limit=1)` guard yields 1 for an
empty collection. -/
def nextCandidate (runs : List (Int × RunDoc V)) : Int :=
  match sortDesc (idsOf runs) with
  | [] => 1
  | m :: _ => m + 1

/-- update_one: apply `f` to the first document whose `_id` equals `i`. -/
def setFirst (runs : List (Int × RunDoc V)) (i : Int) (f : RunDoc V → RunDoc V) :
    List (Int × RunDoc V) :=
  match runs with
  | [] => []
  | (j, d) :: rest => if j == i then (j, f d) :: rest else (j, d) :: setFirst rest i f

/-- Whether the partial update is the empty dict (the default argument of
`save`); Python's `new_data or self.run_entry` takes the run entry then. -/
def partIsEmpty (p : PartData) : Bool :=
  p.captured_out.isNone && p.info.isNone

/-- $set of a partial field set on a stored document: only the named
fields are replaced. -/
def applyPart (d : RunDoc V) (p : PartData) : RunDoc V :=
  { d with
    captured_out := p.captured_out.getD d.captured_out
    info := p.info.getD d.info }

/-- MongoDBClient.save (lines 218-228): update_one keyed by
`run_entry['_id']`, with `$set: new_data or run_entry`; AutoReconnect is
swallowed, InvalidDocument triggers `raise ObserverError(...)` which,
ObserverError being undefined, fails with a NameError. -/
def save (enc : Payload V → Bool) (fault : Bool) (entry : Option Int × RunDoc V)
    (p : PartData) (runs : List (Int × RunDoc V)) :
    Except ObsError (List (Int × RunDoc V)) × List Ev :=
  let payload : Payload V := if partIsEmpty p then .doc entry.2 else .part p
  if !enc payload then (.error .nameError, [.rejectedDoc])
  else if fault then (.ok runs, [.reconnect])
  else
    match entry.1 with
    | none => (.ok runs, [.updateRun none])
    | some i =>
      let runs' :=
        if partIsEmpty p then setFirst runs i (fun _ => entry.2)
        else setFirst runs i (fun d => applyPart d p)
      (.ok runs', [.updateRun (some i)])

/-- The `while True` loop of MongoDBClient.insert in the autoincrement case
(`run_entry['_id'] is None`).  Each schedule round supplies the documents
other processes inserted between our read and our insert_one, plus a flag
for a persistence failure other than DuplicateKey/InvalidDocument.
DuplicateKey restarts the loop; exhausting the schedule while still
retrying is `stalled`. -/
def insertLoop (enc : Payload V → Bool) (d : RunDoc V) :
    List (List (Int × RunDoc V) × Bool) → List (Int × RunDoc V) →
    Outcome ((Option Int × RunDoc V) × List (Int × RunDoc V)) × List Ev
  | [], _ => (.stalled, [])
  | (intf, fault) :: rest, runs =>
    let cand := nextCandidate runs
    let runs' := runs ++ intf
    if !enc (.doc d) then
      (.err .nameError, [.insertAttempt (some cand), .rejectedDoc])
    else if fault then (.err .otherFailure, [.insertAttempt (some cand)])
    else if (idsOf runs').contains cand then
      let r := insertLoop enc d rest runs'
      (r.1, .insertAttempt (some cand) :: .dupKeyEv cand :: r.2)
    else
      (.ok ((some cand, d), runs' ++ [(cand, d)]),
       [.insertAttempt (some cand), .inserted cand])

/-- MongoDBClient.insert (lines 194-216).  With an overwrite target it
delegates to `save()` (full document).  With an explicit id it performs a
single insert_one, re-raising DuplicateKey; otherwise it runs the
autoincrement loop.  Returns the final run entry, the runs collection, the
event trace and the remaining save-fault schedule. -/
def insert (enc : Payload V → Bool) (overwrite : Option (Int × RunDoc V))
    (entry : Option Int × RunDoc V) (sched : List (List (Int × RunDoc V) × Bool))
    (sf : List Bool) (runs : List (Int × RunDoc V)) :
    Outcome ((Option Int × RunDoc V) × List (Int × RunDoc V)) × List Ev × List Bool :=
  match overwrite with
  | some _ =>
    let b := sf.headD false
    let sf' := sf.tail
    match save enc b entry ⟨none, none⟩ runs with
    | (.ok runs', tr) => (.ok (entry, runs'), tr, sf')
    | (.error e, tr) => (.err e, tr, sf')
  | none =>
    match entry.1 with
    | some i =>
      match sched with
      | [] => (.stalled, [], sf)
      | (intf, fault) :: _ =>
        let runs' := runs ++ intf
        if !enc (.doc entry.2) then
          (.err .nameError, [.insertAttempt (some i), .rejectedDoc], sf)
        else if fault then (.err .otherFailure, [.insertAttempt (some i)], sf)
        else if (idsOf runs').contains i then
          (.err .duplicateKey, [.insertAttempt (some i), .dupKeyEv i], sf)
        else
          (.ok ((some i, entry.2), runs' ++ [(i, entry.2)]),
           [.insertAttempt (some i), .inserted i], sf)
    | none =>
      let r := insertLoop enc entry.2 sched runs
      (r.1, r.2, sf)

/-- os.path.join of the experiment base_dir and a source file name. -/
def pathJoin (base n : String) : String := base ++ "/" ++ n

/-- First blob matching filename and md5 in a blob list. -/
def findBlob (l : List (Blob V)) (p h : String) : Option (Blob V) :=
  match l with
  | [] => none
  | b :: rest => if b.filename == p && b.md5 == h then some b else findBlob rest p h

/-- GridFS find_one by filename and md5: first matching blob. -/
def fsFindOne (fs : FS V) (p h : String) : Option (Blob V) :=
  findBlob fs.blobs p h

/-- GridFS put: store the content under the filename; GridFS computes the
md5 of the stored bytes itself and assigns a fresh id. -/
def fsPut (md5Fn : V → String) (fs : FS V) (p : String) (c : V) : Nat × FS V :=
  (fs.next, ⟨fs.blobs ++ [⟨fs.next, p, md5Fn c, c⟩], fs.next + 1⟩)

/-- MongoDBClient.save_sources (lines 230-243): for each manifest entry
look up a blob by (base_dir-joined path, md5); on a miss read the file
from the snapshot directory (a missing file is fatal) and put a new blob.
Returns the resolved (name, blob id) list and the blob store as mutated so
far (puts before a failure have happened). -/
def save_sources (md5Fn : V → String) (dir : String → Option V) (base : String) :
    List (String × String) → FS V →
    Except ObsError (List (String × Nat)) × FS V × List Ev
  | [], fs => (.ok [], fs, [])
  | (n, h) :: rest, fs =>
    let p := pathJoin base n
    match fsFindOne fs p h with
    | some b =>
      match save_sources md5Fn dir base rest fs with
      | (.ok si, fs', tr) => (.ok ((n, b.id) :: si), fs', .fsFind p h :: tr)
      | (.error e, fs', tr) => (.error e, fs', .fsFind p h :: tr)
    | none =>
      match dir n with
      | none => (.error .missingSourceFile, fs, [.fsFind p h])
      | some c =>
        let put := fsPut md5Fn fs p c
        match save_sources md5Fn dir base rest put.2 with
        | (.ok si, fs', tr) =>
          (.ok ((n, put.1) :: si), fs', .fsFind p h :: .fsPutEv p :: tr)
        | (.error e, fs', tr) => (.error e, fs', .fsFind p h :: .fsPutEv p :: tr)

/-- find_one on the metrics collection by the (run_id, name) query: first
matching document. -/
def findMetric (ms : List (MetricDoc σ υ τ)) (rid : Option Int) (n : String) :
    Option (MetricDoc σ υ τ) :=
  match ms with
  | [] => none
  | m :: rest => if m.run_id == rid && m.name == n then some m else findMetric rest rid n

/-- $push with $each on the first document matching (run_id, name). -/
def pushFirst (ms : List (MetricDoc σ υ τ)) (rid : Option Int) (n : String)
    (b : Batch σ υ τ) : List (MetricDoc σ υ τ) :=
  match ms with
  | [] => []
  | m :: rest =>
    if m.run_id == rid && m.name == n then
      { m with
        steps := m.steps ++ b.steps
        values := m.values ++ b.values
        timestamps := m.timestamps ++ b.timestamps } :: rest
    else m :: pushFirst rest rid n b

/-- The metrics upsert at line 184: update_one with upsert=True.  If a
document matches, its arrays are extended and upserted_id is None;
otherwise a new document is created from the query plus the pushed batch,
with a generated object id reported as upserted_id. -/
def metricsUpsert (ms : List (MetricDoc σ υ τ)) (ctr : Nat) (rid : Option Int)
    (n : String) (b : Batch σ υ τ) :
    Option Nat × List (MetricDoc σ υ τ) × Nat :=
  match findMetric ms rid n with
  | some _ => (none, pushFirst ms rid n b, ctr)
  | none => (some ctr, ms ++ [⟨ctr, rid, n, b.steps, b.values, b.timestamps⟩], ctr + 1)

/-- The loop at lines 176-189: upsert each batch and collect an
`info.metrics` registry entry (name, generated id) exactly for the upserts
that created their document. -/
def mergeMetrics (ms : List (MetricDoc σ υ τ)) (ctr : Nat) (rid : Option Int) :
    List (String × Batch σ υ τ) →
    List (String × Nat) × List (MetricDoc σ υ τ) × Nat × List Ev
  | [] => ([], ms, ctr, [])
  | (k, b) :: rest =>
    match metricsUpsert ms ctr rid k b with
    | (some oid, ms1, ctr1) =>
      let r := mergeMetrics ms1 ctr1 rid rest
      ((k, oid) :: r.1, r.2.1, r.2.2.1, .metricUpsert rid k true :: r.2.2.2)
    | (none, ms1, ctr1) =>
      let r := mergeMetrics ms1 ctr1 rid rest
      (r.1, r.2.1, r.2.2.1, .metricUpsert rid k false :: r.2.2.2)

/-- The literal part of the marker pattern
`Started run with ID "\d+"` before the digits. -/
def markerLit : List Char :=
  ['S', 't', 'a', 'r', 't', 'e', 'd', ' ', 'r', 'u', 'n', ' ', 'w', 'i', 't', 'h',
   ' ', 'I', 'D', ' ', '"']

/-- Drop `pfx` from the front of `s` when it is a prefix. -/
def dropPfx : List Char → List Char → Option (List Char)
  | [], s => some s
  | _ :: _, [] => none
  | a :: as, b :: bs => if a = b then dropPfx as bs else none

/-- Match the marker pattern at the head of `s`: the literal, then one or
more digits (greedy), then a closing quote; returns the remainder. -/
def matchMarker (s : List Char) : Option (List Char) :=
  match dropPfx markerLit s with
  | none => none
  | some r =>
    match r.drop (r.takeWhile Char.isDigit).length with
    | '"' :: tail => if (r.takeWhile Char.isDigit).isEmpty then none else some tail
    | _ => none

/-- The replacement text `Started run with ID "<final id>"`. -/
def replacementFor (j : Option Int) : List Char :=
  markerLit ++ (idToStr j).toList ++ ['"']

/-- re.sub with count=1 (line 170): rewrite the first occurrence of the
marker pattern, leave everything else unchanged. -/
def subFirst (j : Option Int) : List Char → List Char
  | [] => []
  | c :: rest =>
    match matchMarker (c :: rest) with
    | some tail => replacementFor j ++ tail
    | none => c :: subFirst j rest

/-- String-level wrapper of `subFirst`. -/
def subFirstStr (j : Option Int) (s : String) : String :=
  ⟨subFirst j s.data⟩

/-- The run entry built by the update at lines 139-157: all fields are
taken from the inputs; resources, artifacts, captured_out and info start
empty; sources still hold the raw manifest. -/
def mkEntry (run : RunInput V) (config : V) : RunDoc V :=
  { experiment := ⟨run.experiment.base_dir, .raw run.experiment.sources, run.experiment.rest⟩
    format := VERSION
    command := run.command
    host := run.host
    start_time := run.start_time
    stop_time := run.stop_time
    config := config
    meta := run.meta
    status := run.status
    result := run.result
    resources := []
    artifacts := []
    captured_out := ""
    info := []
    heartbeat := run.heartbeat }

/-- Overwrite the sources field of the embedded experiment descriptor
(lines 160 and 163). -/
def setSources (d : RunDoc V) (s : Sources) : RunDoc V :=
  { d with experiment := { d.experiment with sources := s } }

/-- MongoDBClient.initialize (lines 101-125) as called from the
constructor: with an overwrite id the target run must exist, otherwise
construction fails (`RuntimeError: Couldn't find run to overwrite`,
the spec's NotFound). -/
def initClient (runs : List (Int × RunDoc V)) (overwrite : Option Int) :
    Except ObsError (Client V) :=
  match overwrite with
  | none => .ok ⟨none, none⟩
  | some i =>
    match findRun runs i with
    | none => .error .notFound
    | some d => .ok ⟨some (i, d), none⟩

/-- Lines 168-192 of finished_event, after the base document insert: the
captured-output substitution and save, then the metric merging and the
info-registry save.  Returns the outcome, the runs and metrics collections,
the metric id generator and the trace. -/
def finishPost (enc : Payload V → Bool) (entry : Option Int × RunDoc V)
    (cout : String) (metrics : Option (List (String × Batch σ υ τ)))
    (sf : List Bool) (runs1 : List (Int × RunDoc V))
    (ms : List (MetricDoc σ υ τ)) (ctr : Nat) :
    Outcome (Option Int) × List (Int × RunDoc V) × List (MetricDoc σ υ τ) × Nat × List Ev :=
  let j := entry.1
  let cout2 := subFirstStr j cout
  let b1 := sf.headD false
  let sf1 := sf.tail
  match save enc b1 entry ⟨some cout2, none⟩ runs1 with
  | (.error e, trC) => (.err e, runs1, ms, ctr, trC)
  | (.ok runs2, trC) =>
    match metrics with
    | none => (.ok j, runs2, ms, ctr, trC)
    | some l =>
      if l.isEmpty then (.ok j, runs2, ms, ctr, trC)
      else
        let r := mergeMetrics ms ctr j l
        let b2 := sf1.headD false
        match save enc b2 entry ⟨none, some r.1⟩ runs2 with
        | (.error e, trN) => (.err e, runs2, r.2.1, r.2.2.1, trC ++ r.2.2.2 ++ trN)
        | (.ok runs3, trN) => (.ok j, runs3, r.2.1, r.2.2.1, trC ++ r.2.2.2 ++ trN)

/-- MongoDBClient.finished_event (lines 127-192).  Resolve the run entry
(double overwrite is rejected before any store operation), build the
document, resolve sources, insert, substitute the captured output, save
it, merge metrics and save the registry.  Returns the outcome (the final
`_id`), the client state, the store and the event trace. -/
def finished_event (enc : Payload V → Bool) (md5Fn : V → String) (c : Client V)
    (st : Store V σ υ τ) (run : RunInput V) (cout : String) (config : V)
    (metrics : Option (List (String × Batch σ υ τ)))
    (code_base_dir : Option (String → Option V)) (idArg : Option Int)
    (sched : List (List (Int × RunDoc V) × Bool)) (sf : List Bool) :
    Outcome (Option Int) × Client V × Store V σ υ τ × List Ev :=
  let skel : Option (Option Int) :=
    match c.overwrite with
    | none => some idArg
    | some (i, _) => if c.run_entry.isSome then none else some (some i)
  match skel with
  | none => (.err .doubleOverwrite, c, st, [])
  | some eid =>
    let entry0 := mkEntry run config
    let src :=
      match code_base_dir with
      | none => ((.ok [] : Except ObsError (List (String × Nat))), st.fs, ([] : List Ev))
      | some dir => save_sources md5Fn dir run.experiment.base_dir run.experiment.sources st.fs
    match src with
    | (.error e, fs1, trS) =>
      (.err e, { c with run_entry := some (eid, entry0) }, { st with fs := fs1 }, trS)
    | (.ok si, fs1, trS) =>
      let entry1 := setSources entry0 (.resolved si)
      match insert enc c.overwrite (eid, entry1) sched sf st.runs with
      | (.err e, trI, _) =>
        (.err e, { c with run_entry := some (eid, entry1) },
         { st with fs := fs1 }, trS ++ trI)
      | (.stalled, trI, _) =>
        (.stalled, { c with run_entry := some (eid, entry1) },
         { st with fs := fs1 }, trS ++ trI)
      | (.ok (entry2, runs1), trI, sf1) =>
        let r := finishPost enc entry2 cout metrics sf1 runs1 st.metrics st.ctr
        (r.1, { c with run_entry := some entry2 },
         ⟨r.2.1, r.2.2.1, fs1, r.2.2.2.1⟩, trS ++ trI ++ r.2.2.2.2)

/-- The three arrays of a metric document have equal length. -/
def eqLenDoc (m : MetricDoc σ υ τ) : Prop :=
  m.steps.length = m.values.length ∧ m.steps.length = m.timestamps.length

/-- At most one blob per (filename, md5) content address. -/
def blobKeyUnique (fs : FS V) : Prop :=
  List.Pairwise (fun a b => ¬(a.filename = b.filename ∧ a.md5 = b.md5)) fs.blobs

/-- The reference `r` denotes a blob stored under the content address
(p, h). -/
def ResolvesTo (fs : FS V) (p h : String) (r : Nat) : Prop :=
  ∃ b ∈ fs.blobs, b.id = r ∧ b.filename = p ∧ b.md5 = h

/-- The manifest hashes are the hashes of the snapshot directory's file
contents (what "content hash" means). -/
def hashConsistent (md5Fn : V → String) (dir : String → Option V)
    (srcs : List (String × String)) : Prop :=
  ∀ nh ∈ srcs, ∀ c, dir nh.1 = some c → md5Fn c = nh.2

/-- A marker occurrence: the literal, a nonempty digit string, a quote. -/
def isMarker (m : List Char) : Prop :=
  ∃ ds, ds ≠ [] ∧ (∀ c ∈ ds, Char.isDigit c = true) ∧ m = markerLit ++ ds ++ ['"']

/-- The marker pattern matches starting at position `j` of `s`. -/
def matchesAt (s : List Char) (j : Nat) : Prop :=
  (matchMarker (s.drop j)).isSome = true

/-- Concrete fixture: an encoder accepting every payload. -/
def encT : Payload Nat → Bool := fun _ => true

/-- Concrete fixture: an encoder rejecting whole documents (an
InvalidDocument-raising store). -/
def encRej : Payload Nat → Bool :=
  fun p => match p with | .doc _ => false | .part _ => true

/-- Concrete fixture: a hash function on Nat contents. -/
def md5T : Nat → String := fun c => toString c

/-- Concrete fixture: a run input whose manifest lists a.py with hash 10. -/
def runT : RunInput Nat :=
  ⟨⟨"/exp", [("a.py", "10")], 0⟩, 1, 2, "s", "t", "h", 3, 4, 5⟩

/-- Concrete fixture: the run document built from `runT`. -/
def docT : RunDoc Nat := mkEntry runT 7

/-- Concrete fixture: a snapshot directory containing only a.py. -/
def dirT : String → Option Nat := fun n => if n = "a.py" then some 10 else none

/-- Concrete fixture: an empty snapshot directory. -/
def dirEmpty : String → Option Nat := fun _ => none

/-- Concrete fixture: an empty store. -/
def stT : Store Nat Nat Nat Nat := ⟨[], [], ⟨[], 0⟩, 0⟩

/-- Concrete fixture: a two-point metric batch. -/
def batchT : Batch Nat Nat Nat := ⟨[0, 1], [10, 20], [100, 101]⟩

end MongoSpec

namespace MongoSpec

variable {V σ υ τ : Type}

theorem mem_insDesc (x y : Int) (l : List Int) : y ∈ insDesc x l ↔ y = x ∨ y ∈ l := by
  induction l with
  | nil => simp [insDesc]
  | cons z zs ih =>
    by_cases h : z ≤ x
    · simp [insDesc, h, List.mem_cons]
    · simp [insDesc, h, List.mem_cons, ih]
      tauto

theorem pairwise_insDesc (x : Int) (l : List Int)
    (h : l.Pairwise (fun a b => b ≤ a)) :
    (insDesc x l).Pairwise (fun a b => b ≤ a) := by
  induction l with
  | nil => simp [insDesc]
  | cons z zs ih =>
    rcases List.pairwise_cons.mp h with ⟨hz, hzs⟩
    by_cases hzx : z ≤ x
    · simp only [insDesc, if_pos hzx]
      refine List.pairwise_cons.mpr ⟨?_, h⟩
      intro y hy
      rcases List.mem_cons.mp hy with rfl | hy'
      · exact hzx
      · exact le_trans (hz y hy') hzx
    · simp only [insDesc, if_neg hzx]
      refine List.pairwise_cons.mpr ⟨?_, ih hzs⟩
      intro y hy
      rcases (mem_insDesc x y zs).mp hy with rfl | hy'
      · exact le_of_lt (lt_of_not_le hzx)
      · exact hz y hy'

theorem mem_sortDesc (y : Int) (l : List Int) : y ∈ sortDesc l ↔ y ∈ l := by
  induction l with
  | nil => simp [sortDesc]
  | cons z zs ih => simp [sortDesc, mem_insDesc, ih]

theorem pairwise_sortDesc (l : List Int) : (sortDesc l).Pairwise (fun a b => b ≤ a) := by
  induction l with
  | nil => simp [sortDesc]
  | cons z zs ih =>
    simp only [sortDesc]
    exact pairwise_insDesc z _ ih

theorem nextCandidate_max (runs : List (Int × RunDoc V)) (hne : runs ≠ []) :
    ∃ m, m ∈ idsOf runs ∧ (∀ x ∈ idsOf runs, x ≤ m) ∧ nextCandidate runs = m + 1 := by
  have hne' : idsOf runs ≠ [] := by
    cases runs with
    | nil => exact absurd rfl hne
    | cons r rs => simp [idsOf]
  cases hsort : sortDesc (idsOf runs) with
  | nil =>
    exfalso
    rcases List.exists_mem_of_ne_nil _ hne' with ⟨y, hy⟩
    have hmem := (mem_sortDesc y (idsOf runs)).mpr hy
    rw [hsort] at hmem
    exact absurd hmem (List.not_mem_nil y)
  | cons m t =>
    refine ⟨m, ?_, ?_, ?_⟩
    · have hmem : m ∈ sortDesc (idsOf runs) := by
        rw [hsort]; exact List.mem_cons_self m t
      exact (mem_sortDesc m (idsOf runs)).mp hmem
    · intro x hx
      have hx' : x ∈ sortDesc (idsOf runs) := (mem_sortDesc x (idsOf runs)).mpr hx
      rw [hsort] at hx'
      rcases List.mem_cons.mp hx' with rfl | hx''
      · exact le_refl x
      · have hp := pairwise_sortDesc (idsOf runs)
        rw [hsort] at hp
        exact (List.pairwise_cons.mp hp).1 x hx''
    · simp [nextCandidate, hsort]

theorem nextCandidate_not_mem (runs : List (Int × RunDoc V)) :
    nextCandidate runs ∉ idsOf runs := by
  by_cases h : runs = []
  · subst h; simp [idsOf]
  · rcases nextCandidate_max runs h with ⟨m, _, hmax, heq⟩
    intro hmem
    have hle := hmax _ hmem
    rw [heq] at hle
    omega

theorem findRun_nil (i : Int) : findRun ([] : List (Int × RunDoc V)) i = none := rfl

theorem findRun_cons (j : Int) (dd : RunDoc V) (rest : List (Int × RunDoc V)) (i : Int) :
    findRun ((j, dd) :: rest) i = if j = i then some dd else findRun rest i := by
  by_cases hj : j = i
  · simp [findRun, hj]
  · simp [findRun, hj]

theorem setFirst_nil (i : Int) (f : RunDoc V → RunDoc V) :
    setFirst ([] : List (Int × RunDoc V)) i f = [] := rfl

theorem setFirst_cons (j : Int) (dd : RunDoc V) (rest : List (Int × RunDoc V)) (i : Int)
    (f : RunDoc V → RunDoc V) :
    setFirst ((j, dd) :: rest) i f
      = if j = i then (j, f dd) :: rest else (j, dd) :: setFirst rest i f := by
  by_cases hj : j = i
  · simp [setFirst, hj]
  · have hne : (j == i) = false := by simpa using hj
    simp [setFirst, hne, hj]

theorem findRun_append_fresh (runs : List (Int × RunDoc V)) (i : Int) (d : RunDoc V)
    (h : i ∉ idsOf runs) : findRun (runs ++ [(i, d)]) i = some d := by
  induction runs with
  | nil => simp [findRun, List.find?]
  | cons r rs ih =>
    cases r with
    | mk j dd =>
      have hne : j ≠ i := by
        intro he
        exact h (by simp [idsOf, he])
      have h' : i ∉ idsOf rs := fun hm => h (by simp [idsOf] at hm ⊢; tauto)
      rw [List.cons_append, findRun_cons, if_neg hne]
      exact ih h'

theorem findRun_setFirst (runs : List (Int × RunDoc V)) (i : Int)
    (f : RunDoc V → RunDoc V) (d : RunDoc V) (h : findRun runs i = some d) :
    findRun (setFirst runs i f) i = some (f d) := by
  induction runs with
  | nil => rw [findRun_nil] at h; cases h
  | cons r rs ih =>
    cases r with
    | mk j dd =>
      by_cases hj : j = i
      · rw [findRun_cons, if_pos hj] at h
        injection h with h
        subst h
        rw [setFirst_cons, if_pos hj, findRun_cons, if_pos hj]
      · rw [findRun_cons, if_neg hj] at h
        rw [setFirst_cons, if_neg hj, findRun_cons, if_neg hj]
        exact ih h

theorem idsOf_setFirst (runs : List (Int × RunDoc V)) (i : Int) (f : RunDoc V → RunDoc V) :
    idsOf (setFirst runs i f) = idsOf runs := by
  induction runs with
  | nil => rfl
  | cons r rs ih =>
    cases r with
    | mk j dd =>
      by_cases hj : j = i
      · rw [setFirst_cons, if_pos hj]
        simp [idsOf]
      · rw [setFirst_cons, if_neg hj]
        simp only [idsOf, List.map_cons] at ih ⊢
        rw [ih]

theorem setFirst_decomp (pre post : List (Int × RunDoc V)) (i : Int) (old : RunDoc V)
    (f : RunDoc V → RunDoc V) (hpre : i ∉ idsOf pre) :
    setFirst (pre ++ (i, old) :: post) i f = pre ++ (i, f old) :: post := by
  induction pre with
  | nil => simp [setFirst]
  | cons r rs ih =>
    cases r with
    | mk j dd =>
      have hne : j ≠ i := by
        intro he
        exact hpre (by simp [idsOf, he])
      have h' : i ∉ idsOf rs := fun hm => hpre (by simp [idsOf] at hm ⊢; tauto)
      rw [List.cons_append, setFirst_cons, if_neg hne, ih h', List.cons_append]

theorem dropPfx_append (l r : List Char) : dropPfx l (l ++ r) = some r := by
  induction l with
  | nil => rfl
  | cons a as ih => simp [dropPfx, ih]

theorem takeWhile_all_stop (p : Char → Bool) (ds r : List Char) (x : Char)
    (hds : ∀ c ∈ ds, p c = true) (hx : p x = false) :
    (ds ++ x :: r).takeWhile p = ds := by
  induction ds with
  | nil => simp [List.takeWhile_cons, hx]
  | cons c cs ih =>
    have hc := hds c (List.mem_cons_self c cs)
    simp only [List.cons_append, List.takeWhile_cons, hc, if_true]
    rw [ih (fun c' hc' => hds c' (List.mem_cons_of_mem _ hc'))]

theorem matchMarker_of_marker (m post : List Char) (hm : isMarker m) :
    matchMarker (m ++ post) = some post := by
  rcases hm with ⟨ds, hne, hds, rfl⟩
  have h1 : (markerLit ++ ds ++ ['"']) ++ post = markerLit ++ (ds ++ '"' :: post) := by
    simp
  rw [h1]
  have h2 : dropPfx markerLit (markerLit ++ (ds ++ '"' :: post)) = some (ds ++ '"' :: post) :=
    dropPfx_append _ _
  have h3 : (ds ++ '"' :: post).takeWhile Char.isDigit = ds :=
    takeWhile_all_stop _ _ _ _ hds (by decide)
  have h4 : (ds ++ '"' :: post).drop ds.length = '"' :: post := List.drop_left ds ('"' :: post)
  have h5 : ds.isEmpty = false := by
    cases ds with
    | nil => exact absurd rfl hne
    | cons a as => rfl
  simp only [matchMarker, h2, h3, h4, h5, Bool.false_eq_true, if_false]

theorem subFirst_eq_of_match (j : Option Int) (s tail : List Char)
    (h : matchMarker s = some tail) : subFirst j s = replacementFor j ++ tail := by
  cases s with
  | nil => simp [matchMarker, dropPfx, markerLit] at h
  | cons c cs => simp only [subFirst, h]

/-- C7: for every captured-output text decomposed as `pre ++ m ++ post`
where `m` is an occurrence of the marker pattern
`Started run with ID "<digits>"` and no occurrence starts inside `pre`
(so `m` is the first occurrence), the substitution rewrites exactly that
occurrence to embed the final id and leaves `post` — hence every later
occurrence — byte-for-byte unchanged. -/
theorem sub_first_rewrites_only_first_occurrence (j : Option Int) (pre m post : List Char)
    (hm : isMarker m)
    (hpre : ∀ k, k < pre.length → ¬ matchesAt (pre ++ m ++ post) k) :
    subFirst j (pre ++ m ++ post) = pre ++ replacementFor j ++ post ∧
    subFirstStr j ⟨pre ++ m ++ post⟩ = ⟨pre ++ replacementFor j ++ post⟩ := by
  have main : subFirst j (pre ++ m ++ post) = pre ++ replacementFor j ++ post := by
    induction pre with
    | nil =>
      simp only [List.nil_append]
      exact subFirst_eq_of_match _ _ _ (matchMarker_of_marker _ _ hm)
    | cons a pr ih =>
      have h0 := hpre 0 (Nat.succ_pos _)
      have hshape : (a :: pr) ++ m ++ post = a :: (pr ++ m ++ post) := by simp
      have hnone : matchMarker (a :: (pr ++ m ++ post)) = none := by
        cases hmm : matchMarker (a :: (pr ++ m ++ post)) with
        | none => rfl
        | some t =>
          exfalso
          apply h0
          show (matchMarker (((a :: pr) ++ m ++ post).drop 0)).isSome = true
          rw [List.drop_zero, hshape, hmm]
          rfl
      rw [hshape]
      simp only [subFirst, hnone]
      have ih' := ih (fun k hk hmat => by
        apply hpre (k + 1) (Nat.succ_lt_succ hk)
        show (matchMarker (((a :: pr) ++ m ++ post).drop (k + 1))).isSome = true
        rw [hshape, List.drop_succ_cons]
        exact hmat)
      rw [ih']
      simp
  exact ⟨main, by simp only [subFirstStr]; exact congrArg String.mk main⟩

/-- C7 witness: the spec's own example, final id 7 rewrites the first
marker and leaves the second untouched. -/
theorem sub_first_witness :
    subFirstStr (some 7) "Started run with ID \"999\"\nStarted run with ID \"999\" again"
      = "Started run with ID \"7\"\nStarted run with ID \"999\" again" := by
  have h := sub_first_rewrites_only_first_occurrence (some 7) []
    (markerLit ++ ['9', '9', '9'] ++ ['"'])
    ('\n' :: (markerLit ++ ['9', '9', '9'] ++ ['"'] ++ [' ', 'a', 'g', 'a', 'i', 'n']))
    ⟨['9', '9', '9'], by decide, by decide, rfl⟩
    (fun k hk => by simp at hk)
  have h2 := h.2
  exact h2

/-- C8: with an overwrite target id whose run is absent from the runs
collection, construction itself (MongoDBClient.initialize, called from
the constructor) fails with the NotFound error; and whenever construction
succeeds with an overwrite target, the target run existed at construction
time (the check is never deferred to finished_event). -/
theorem init_client_overwrite_checked_at_construction
    (runs : List (Int × RunDoc V)) (ow : Option Int) :
    (∀ i, ow = some i → findRun runs i = none → initClient runs ow = .error .notFound) ∧
    (∀ c, initClient runs ow = .ok c → c.run_entry = none ∧
      ∀ i, ow = some i → ∃ d, findRun runs i = some d ∧ c.overwrite = some (i, d)) := by
  constructor
  · intro i hi hf
    subst hi
    simp [initClient, hf]
  · intro c hc
    cases ow with
    | none =>
      simp only [initClient] at hc
      injection hc with hc
      subst hc
      exact ⟨rfl, fun i hi => by cases hi⟩
    | some i =>
      cases hf : findRun runs i with
      | none => simp [initClient, hf] at hc
      | some d =>
        simp only [initClient, hf] at hc
        injection hc with hc
        subst hc
        refine ⟨rfl, fun i' hi' => ?_⟩
        injection hi' with hi'
        subst hi'
        exact ⟨d, hf, rfl⟩

/-- C8 witness: constructing against an empty collection with overwrite
target 5 fails with NotFound. -/
theorem init_client_witness :
    initClient ([] : List (Int × RunDoc Nat)) (some 5) = .error .notFound :=
  (init_client_overwrite_checked_at_construction ([] : List (Int × RunDoc Nat)) (some 5)).1
    5 rfl rfl

/-- C10: `save` with the empty mapping (its default argument) is not a
no-op and not a partial update: it issues an update that $sets the entire
current run_entry document, replacing the stored document wholesale; a
non-empty mapping instead updates only the named fields and leaves every
other field of the stored document untouched. -/
theorem save_empty_mapping_sets_whole_document (enc : Payload V → Bool)
    (dd old : RunDoc V) (i : Int) (pre post : List (Int × RunDoc V)) (p : PartData)
    (hpre : i ∉ idsOf pre) :
    (enc (.doc dd) = true →
      save enc false (some i, dd) ⟨none, none⟩ (pre ++ (i, old) :: post)
        = (.ok (pre ++ (i, dd) :: post), [.updateRun (some i)])) ∧
    (enc (.part p) = true → partIsEmpty p = false →
      save enc false (some i, dd) p (pre ++ (i, old) :: post)
        = (.ok (pre ++ (i, applyPart old p) :: post), [.updateRun (some i)])) ∧
    ((applyPart old p).experiment = old.experiment ∧
     (applyPart old p).format = old.format ∧
     (applyPart old p).command = old.command ∧
     (applyPart old p).host = old.host ∧
     (applyPart old p).start_time = old.start_time ∧
     (applyPart old p).stop_time = old.stop_time ∧
     (applyPart old p).config = old.config ∧
     (applyPart old p).meta = old.meta ∧
     (applyPart old p).status = old.status ∧
     (applyPart old p).result = old.result ∧
     (applyPart old p).resources = old.resources ∧
     (applyPart old p).artifacts = old.artifacts ∧
     (applyPart old p).heartbeat = old.heartbeat ∧
     (applyPart old p).captured_out = p.captured_out.getD old.captured_out ∧
     (applyPart old p).info = p.info.getD old.info) := by
  refine ⟨?_, ?_, ?_⟩
  · intro henc
    have hemp : partIsEmpty (⟨none, none⟩ : PartData) = true := rfl
    simp only [save, hemp, if_true, henc, Bool.not_true, Bool.false_eq_true, if_false]
    rw [setFirst_decomp _ _ _ _ _ hpre]
  · intro henc hne
    simp only [save, hne, Bool.false_eq_true, if_false, henc, Bool.not_true]
    rw [setFirst_decomp _ _ _ _ _ hpre]
  · exact ⟨rfl, rfl, rfl, rfl, rfl, rfl, rfl, rfl, rfl, rfl, rfl, rfl, rfl, rfl, rfl⟩

/-- C10 witness: a concrete store with one document; the empty mapping
replaces the whole document, a captured_out-only mapping updates just
that field. -/
theorem save_empty_mapping_witness :
    save encT false (some 1, docT) ⟨none, none⟩ [(1, mkEntry runT 9)]
      = (.ok [(1, docT)], [.updateRun (some 1)]) ∧
    save encT false (some 1, docT) ⟨some "out", none⟩ [(1, mkEntry runT 9)]
      = (.ok [(1, applyPart (mkEntry runT 9) ⟨some "out", none⟩)], [.updateRun (some 1)]) := by
  have h := save_empty_mapping_sets_whole_document encT docT (mkEntry runT 9) 1 []
    [] ⟨some "out", none⟩ (by simp [idsOf])
  exact ⟨h.1 rfl, h.2.1 rfl rfl⟩

theorem findMetric_cons (m : MetricDoc σ υ τ) (rest : List (MetricDoc σ υ τ))
    (rid : Option Int) (n : String) :
    findMetric (m :: rest) rid n
      = if m.run_id = rid ∧ m.name = n then some m else findMetric rest rid n := by
  by_cases h : m.run_id = rid ∧ m.name = n
  · simp [findMetric, h.1, h.2]
  · have hb : (m.run_id == rid && m.name == n) = false := by
      rcases not_and_or.mp h with h1 | h1 <;> simp [h1]
    simp [findMetric, hb, h]

theorem pushFirst_cons (m : MetricDoc σ υ τ) (rest : List (MetricDoc σ υ τ))
    (rid : Option Int) (n : String) (b : Batch σ υ τ) :
    pushFirst (m :: rest) rid n b
      = if m.run_id = rid ∧ m.name = n then
          { m with
            steps := m.steps ++ b.steps
            values := m.values ++ b.values
            timestamps := m.timestamps ++ b.timestamps } :: rest
        else m :: pushFirst rest rid n b := by
  by_cases h : m.run_id = rid ∧ m.name = n
  · simp [pushFirst, h.1, h.2]
  · have hb : (m.run_id == rid && m.name == n) = false := by
      rcases not_and_or.mp h with h1 | h1 <;> simp [h1]
    simp [pushFirst, hb, h]

theorem pushFirst_eqlen (ms : List (MetricDoc σ υ τ)) (rid : Option Int) (k : String)
    (b : Batch σ υ τ) (n : Nat)
    (hs : b.steps.length = n) (hv : b.values.length = n) (ht : b.timestamps.length = n)
    (hinv : ∀ m ∈ ms, eqLenDoc m) :
    ∀ m ∈ pushFirst ms rid k b, eqLenDoc m := by
  induction ms with
  | nil => intro m hm; simp [pushFirst] at hm
  | cons m0 rest ih =>
    intro m hm
    rw [pushFirst_cons] at hm
    by_cases h : m0.run_id = rid ∧ m0.name = k
    · rw [if_pos h] at hm
      rcases List.mem_cons.mp hm with rfl | hm'
      · rcases hinv m0 (List.mem_cons_self _ _) with ⟨h1, h2⟩
        refine ⟨?_, ?_⟩ <;> simp only [List.length_append, hs, hv, ht] <;> omega
      · exact hinv m (List.mem_cons_of_mem _ hm')
    · rw [if_neg h] at hm
      rcases List.mem_cons.mp hm with rfl | hm'
      · exact hinv m (List.mem_cons_self _ _)
      · exact ih (fun m' hm' => hinv m' (List.mem_cons_of_mem _ hm')) m hm'

theorem findMetric_pushFirst_self (ms : List (MetricDoc σ υ τ)) (rid : Option Int)
    (k : String) (b : Batch σ υ τ) (m0 : MetricDoc σ υ τ)
    (h : findMetric ms rid k = some m0) :
    findMetric (pushFirst ms rid k b) rid k
      = some { m0 with
               steps := m0.steps ++ b.steps
               values := m0.values ++ b.values
               timestamps := m0.timestamps ++ b.timestamps } := by
  induction ms with
  | nil => simp [findMetric] at h
  | cons m rest ih =>
    rw [findMetric_cons] at h
    rw [pushFirst_cons]
    by_cases hp : m.run_id = rid ∧ m.name = k
    · rw [if_pos hp] at h
      injection h with h
      subst h
      rw [if_pos hp, findMetric_cons, if_pos (by exact ⟨hp.1, hp.2⟩)]
    · rw [if_neg hp] at h
      rw [if_neg hp, findMetric_cons, if_neg hp]
      exact ih h

theorem findMetric_append_self (ms : List (MetricDoc σ υ τ)) (rid : Option Int)
    (k : String) (md : MetricDoc σ υ τ) (h : findMetric ms rid k = none)
    (hrid : md.run_id = rid) (hname : md.name = k) :
    findMetric (ms ++ [md]) rid k = some md := by
  induction ms with
  | nil => simp [findMetric_cons, hrid, hname]
  | cons m rest ih =>
    rw [findMetric_cons] at h
    by_cases hp : m.run_id = rid ∧ m.name = k
    · rw [if_pos hp] at h; cases h
    · rw [if_neg hp] at h
      rw [List.cons_append, findMetric_cons, if_neg hp]
      exact ih h

/-- C5: a metric upsert whose batch has three equal-length arrays of
length n leaves the store's metric document for the (run id, name) key
holding each of its previous arrays extended in order by the batch (or
created from the batch alone when no document existed, reporting the
generated id as upserted), and the equal-length invariant holds for every
metric document afterwards. -/
theorem metrics_upsert_appends_arrays_eqlen (ms : List (MetricDoc σ υ τ)) (ctr : Nat)
    (rid : Option Int) (k : String) (b : Batch σ υ τ) (n : Nat)
    (hs : b.steps.length = n) (hv : b.values.length = n) (ht : b.timestamps.length = n)
    (hinv : ∀ m ∈ ms, eqLenDoc m) :
    (∀ m ∈ (metricsUpsert ms ctr rid k b).2.1, eqLenDoc m) ∧
    (findMetric ms rid k = none →
      (metricsUpsert ms ctr rid k b).1 = some ctr ∧
      findMetric (metricsUpsert ms ctr rid k b).2.1 rid k
        = some ⟨ctr, rid, k, b.steps, b.values, b.timestamps⟩) ∧
    (∀ m0, findMetric ms rid k = some m0 →
      (metricsUpsert ms ctr rid k b).1 = none ∧
      findMetric (metricsUpsert ms ctr rid k b).2.1 rid k
        = some { m0 with
                 steps := m0.steps ++ b.steps
                 values := m0.values ++ b.values
                 timestamps := m0.timestamps ++ b.timestamps }) := by
  refine ⟨?_, ?_, ?_⟩
  · intro m hm
    cases hf : findMetric ms rid k with
    | none =>
      simp only [metricsUpsert, hf] at hm
      rcases List.mem_append.mp hm with hm' | hm'
      · exact hinv m hm'
      · rcases List.mem_singleton.mp hm' with rfl
        exact ⟨by simp [hs, hv], by simp [hs, ht]⟩
    | some m0 =>
      simp only [metricsUpsert, hf] at hm
      exact pushFirst_eqlen ms rid k b n hs hv ht hinv m hm
  · intro hf
    refine ⟨by simp [metricsUpsert, hf], ?_⟩
    simp only [metricsUpsert, hf]
    exact findMetric_append_self ms rid k _ hf rfl rfl
  · intro m0 hf
    refine ⟨by simp [metricsUpsert, hf], ?_⟩
    simp only [metricsUpsert, hf]
    exact findMetric_pushFirst_self ms rid k b m0 hf

/-- C5 witness: merging batchT for a fresh (run 1, loss) pair creates the
series from the batch, and a second merge appends in order; all arrays
stay equal-length. -/
theorem metrics_upsert_witness :
    (metricsUpsert ([] : List (MetricDoc Nat Nat Nat)) 0 (some 1) "loss" batchT).1 = some 0 ∧
    findMetric (metricsUpsert ([] : List (MetricDoc Nat Nat Nat)) 0 (some 1) "loss" batchT).2.1
      (some 1) "loss" = some ⟨0, some 1, "loss", [0, 1], [10, 20], [100, 101]⟩ ∧
    ∀ m ∈ (metricsUpsert ([] : List (MetricDoc Nat Nat Nat)) 0 (some 1) "loss" batchT).2.1,
      eqLenDoc m := by
  have h := metrics_upsert_appends_arrays_eqlen ([] : List (MetricDoc Nat Nat Nat)) 0
    (some 1) "loss" batchT 2 rfl rfl rfl (fun m hm => by simp at hm)
  have h2 := h.2.1 rfl
  exact ⟨h2.1, h2.2, h.1⟩

theorem insert_autoinc_unfold (enc : Payload V → Bool) (d : RunDoc V)
    (sched : List (List (Int × RunDoc V) × Bool)) (sf : List Bool)
    (runs : List (Int × RunDoc V)) :
    insert enc none (none, d) sched sf runs
      = ((insertLoop enc d sched runs).1, (insertLoop enc d sched runs).2, sf) := rfl

theorem insertLoop_cons (enc : Payload V → Bool) (d : RunDoc V)
    (intf : List (Int × RunDoc V)) (fault : Bool)
    (rest : List (List (Int × RunDoc V) × Bool)) (runs : List (Int × RunDoc V)) :
    insertLoop enc d ((intf, fault) :: rest) runs
      = if enc (.doc d) = false then
          (.err .nameError, [.insertAttempt (some (nextCandidate runs)), .rejectedDoc])
        else if fault = true then
          (.err .otherFailure, [.insertAttempt (some (nextCandidate runs))])
        else if nextCandidate runs ∈ idsOf (runs ++ intf) then
          ((insertLoop enc d rest (runs ++ intf)).1,
            .insertAttempt (some (nextCandidate runs)) :: .dupKeyEv (nextCandidate runs)
              :: (insertLoop enc d rest (runs ++ intf)).2)
        else
          (.ok ((some (nextCandidate runs), d), (runs ++ intf) ++ [(nextCandidate runs, d)]),
            [.insertAttempt (some (nextCandidate runs)), .inserted (nextCandidate runs)]) := by
  by_cases he : enc (.doc d) = false
  · simp [insertLoop, he]
  · have he' : enc (.doc d) = true := by
      cases h : enc (.doc d) with
      | false => exact absurd h he
      | true => rfl
    by_cases hf : fault = true
    · simp [insertLoop, he', hf]
    · have hf' : fault = false := by
        cases fault with
        | false => rfl
        | true => exact absurd rfl hf
      by_cases hmem : nextCandidate runs ∈ idsOf (runs ++ intf)
      · have hc : (idsOf (runs ++ intf)).contains (nextCandidate runs) = true := by
          simpa [List.elem_iff] using hmem
        simp [insertLoop, he', hf', hc, hmem]
      · have hc : (idsOf (runs ++ intf)).contains (nextCandidate runs) = false := by
          cases h : (idsOf (runs ++ intf)).contains (nextCandidate runs) with
          | false => rfl
          | true => exact absurd (by simpa [List.elem_iff] using h) hmem
        simp [insertLoop, he', hf', hc, hmem]

/-- C1: the autoincrement insert (no overwrite target, no explicit id)
computes the candidate id as max + 1 over the current runs collection (1
when it is empty), attempts the insert keyed by exactly that candidate,
retries against the recomputed collection whenever the candidate id is
already taken, and surfaces any other persistence failure — an
unencodable document or an injected store failure — to the caller. -/
theorem insert_autoinc_allocates_max_plus_one (enc : Payload V → Bool) (d : RunDoc V)
    (runs intf : List (Int × RunDoc V)) (fault : Bool)
    (rest : List (List (Int × RunDoc V) × Bool)) (sf : List Bool) :
    (runs = [] → nextCandidate runs = 1) ∧
    (runs ≠ [] →
      ∃ m, m ∈ idsOf runs ∧ (∀ x ∈ idsOf runs, x ≤ m) ∧ nextCandidate runs = m + 1) ∧
    (∃ tl, (insert enc none (none, d) ((intf, fault) :: rest) sf runs).2.1
        = Ev.insertAttempt (some (nextCandidate runs)) :: tl) ∧
    (enc (.doc d) = true → fault = false →
      nextCandidate runs ∈ idsOf (runs ++ intf) →
      (insert enc none (none, d) ((intf, fault) :: rest) sf runs).1
        = (insert enc none (none, d) rest sf (runs ++ intf)).1) ∧
    (enc (.doc d) = false →
      (insert enc none (none, d) ((intf, fault) :: rest) sf runs).1 = .err .nameError) ∧
    (enc (.doc d) = true → fault = true →
      (insert enc none (none, d) ((intf, fault) :: rest) sf runs).1 = .err .otherFailure) ∧
    (enc (.doc d) = true → fault = false →
      nextCandidate runs ∉ idsOf (runs ++ intf) →
      (insert enc none (none, d) ((intf, fault) :: rest) sf runs).1
        = .ok ((some (nextCandidate runs), d), (runs ++ intf) ++ [(nextCandidate runs, d)])) := by
  refine ⟨?_, nextCandidate_max runs, ?_, ?_, ?_, ?_, ?_⟩
  · intro h
    subst h
    rfl
  · rw [insert_autoinc_unfold, insertLoop_cons]
    by_cases he : enc (.doc d) = false
    · rw [if_pos he]
      exact ⟨_, rfl⟩
    · rw [if_neg he]
      by_cases hf : fault = true
      · rw [if_pos hf]
        exact ⟨_, rfl⟩
      · rw [if_neg hf]
        by_cases hmem : nextCandidate runs ∈ idsOf (runs ++ intf)
        · rw [if_pos hmem]
          exact ⟨_, rfl⟩
        · rw [if_neg hmem]
          exact ⟨_, rfl⟩
  · intro he hf hmem
    rw [insert_autoinc_unfold, insert_autoinc_unfold, insertLoop_cons]
    simp [he, hf, hmem]
  · intro he
    rw [insert_autoinc_unfold, insertLoop_cons]
    simp [he]
  · intro he hf
    rw [insert_autoinc_unfold, insertLoop_cons]
    simp [he, hf]
  · intro he hf hmem
    rw [insert_autoinc_unfold, insertLoop_cons]
    simp [he, hf, hmem]

/-- C1 witness: over a collection holding ids 3 and 7, the attempt is
keyed 8 = 7 + 1 and succeeds on a quiet round; on an empty collection the
candidate is 1; an unencodable document surfaces its failure. -/
theorem insert_autoinc_witness :
    nextCandidate ([] : List (Int × RunDoc Nat)) = 1 ∧
    (insert encT none (none, docT) [([], false)] [] [(3, docT), (7, docT)]).1
      = .ok ((some 8, docT), [(3, docT), (7, docT), (8, docT)]) ∧
    (insert encRej none (none, docT) [([], false)] [] [(3, docT), (7, docT)]).1
      = .err .nameError := by
  have h1 := (insert_autoinc_allocates_max_plus_one encT docT
    ([] : List (Int × RunDoc Nat)) [] false [] []).1 rfl
  have h2 := (insert_autoinc_allocates_max_plus_one encT docT
    [((3 : Int), docT), (7, docT)] [] false [] []).2.2.2.2.2.2 rfl rfl
    (by decide)
  have h3 := (insert_autoinc_allocates_max_plus_one encRej docT
    [((3 : Int), docT), (7, docT)] [] false [] []).2.2.2.2.1 rfl
  refine ⟨h1, ?_, h3⟩
  rw [h2]
  rfl

theorem save_part_some (enc : Payload V → Bool) (p : PartData) (i : Int) (dd : RunDoc V)
    (runs : List (Int × RunDoc V)) (henc : enc (.part p) = true)
    (hp : partIsEmpty p = false) :
    save enc false (some i, dd) p runs
      = (.ok (setFirst runs i (fun d => applyPart d p)), [.updateRun (some i)]) := by
  simp only [save, hp, Bool.false_eq_true, if_false, henc, Bool.not_true]

theorem save_full_some (enc : Payload V → Bool) (i : Int) (dd : RunDoc V)
    (runs : List (Int × RunDoc V)) (henc : enc (.doc dd) = true) :
    save enc false (some i, dd) ⟨none, none⟩ runs
      = (.ok (setFirst runs i (fun _ => dd)), [.updateRun (some i)]) := by
  have hemp : partIsEmpty (⟨none, none⟩ : PartData) = true := rfl
  simp only [save, hemp, if_true, henc, Bool.not_true, Bool.false_eq_true, if_false]

theorem save_rejected_iff (enc : Payload V → Bool) (fault : Bool)
    (entry : Option Int × RunDoc V) (p : PartData) (runs : List (Int × RunDoc V)) :
    (Ev.rejectedDoc ∈ (save enc fault entry p runs).2
      ↔ (save enc fault entry p runs).1 = .error .nameError) ∧
    ((save enc fault entry p runs).1 = .error .nameError
      ↔ enc (if partIsEmpty p then .doc entry.2 else .part p) = false) := by
  cases henc : enc (if partIsEmpty p then .doc entry.2 else .part p) with
  | false =>
    simp only [save, henc, Bool.not_false, if_true]
    simp
  | true =>
    cases fault with
    | true =>
      simp only [save, henc, Bool.not_true, Bool.false_eq_true, if_false, if_true]
      simp
    | false =>
      simp only [save, henc, Bool.not_true, Bool.false_eq_true, if_false]
      cases entry.1 with
      | none => simp
      | some i => simp

theorem finishPost_nometrics_char (enc : Payload V → Bool) (henc : ∀ q, enc q = true)
    (i : Int) (dd : RunDoc V) (cout : String)
    (metrics : Option (List (String × Batch σ υ τ)))
    (hm : metrics = none ∨ metrics = some ([] : List (String × Batch σ υ τ)))
    (runs1 : List (Int × RunDoc V)) (ms : List (MetricDoc σ υ τ)) (ctr : Nat) :
    finishPost enc (some i, dd) cout metrics [] runs1 ms ctr
      = (.ok (some i),
         setFirst runs1 i
           (fun d => applyPart d ⟨some (subFirstStr (some i) cout), none⟩),
         ms, ctr, [Ev.updateRun (some i)]) := by
  have hsave := save_part_some enc ⟨some (subFirstStr (some i) cout), none⟩ i dd runs1
    (henc _) rfl
  rcases hm with rfl | rfl
  · simp only [finishPost, List.headD, List.tail, hsave]
  · simp only [finishPost, List.headD, List.tail, hsave, List.isEmpty, if_true]

theorem finishPost_metrics_char (enc : Payload V → Bool) (henc : ∀ q, enc q = true)
    (i : Int) (dd : RunDoc V) (cout : String) (l : List (String × Batch σ υ τ))
    (hl : l ≠ []) (runs1 : List (Int × RunDoc V)) (ms : List (MetricDoc σ υ τ)) (ctr : Nat) :
    finishPost enc (some i, dd) cout (some l) [] runs1 ms ctr
      = (.ok (some i),
         setFirst (setFirst runs1 i
             (fun d => applyPart d ⟨some (subFirstStr (some i) cout), none⟩)) i
           (fun d => applyPart d ⟨none, some (mergeMetrics ms ctr (some i) l).1⟩),
         (mergeMetrics ms ctr (some i) l).2.1,
         (mergeMetrics ms ctr (some i) l).2.2.1,
         [Ev.updateRun (some i)] ++ (mergeMetrics ms ctr (some i) l).2.2.2
           ++ [Ev.updateRun (some i)]) := by
  have hsave1 := save_part_some enc ⟨some (subFirstStr (some i) cout), none⟩ i dd runs1
    (henc _) rfl
  have hsave2 := save_part_some enc ⟨none, some (mergeMetrics ms ctr (some i) l).1⟩ i dd
    (setFirst runs1 i (fun d => applyPart d ⟨some (subFirstStr (some i) cout), none⟩))
    (henc _) rfl
  have hne : l.isEmpty = false := by
    cases l with
    | nil => exact absurd rfl hl
    | cons a as => rfl
  simp only [finishPost, List.headD, List.tail, hsave1, hne, Bool.false_eq_true, if_false,
    hsave2]

theorem finished_event_after_insert_ok (enc : Payload V → Bool) (md5Fn : V → String)
    (c : Client V) (st : Store V σ υ τ) (run : RunInput V) (cout : String) (config : V)
    (metrics : Option (List (String × Batch σ υ τ)))
    (dirOpt : Option (String → Option V)) (idArg : Option Int)
    (sched : List (List (Int × RunDoc V) × Bool)) (sf : List Bool)
    (eid : Option Int)
    (hskel : (c.overwrite = none ∧ eid = idArg) ∨
      (∃ iv dov, c.overwrite = some (iv, dov) ∧ c.run_entry = none ∧ eid = some iv))
    (si : List (String × Nat)) (fs1 : FS V) (trS : List Ev)
    (hsrc : (dirOpt = none ∧ si = [] ∧ fs1 = st.fs ∧ trS = []) ∨
      (∃ dir, dirOpt = some dir ∧
        save_sources md5Fn dir run.experiment.base_dir run.experiment.sources st.fs
          = (.ok si, fs1, trS)))
    (entry2 : Option Int × RunDoc V) (runs1 : List (Int × RunDoc V)) (trI : List Ev)
    (sf1 : List Bool)
    (hins : insert enc c.overwrite (eid, setSources (mkEntry run config) (.resolved si))
        sched sf st.runs = (.ok (entry2, runs1), trI, sf1)) :
    finished_event enc md5Fn c st run cout config metrics dirOpt idArg sched sf
      = ((finishPost enc entry2 cout metrics sf1 runs1 st.metrics st.ctr).1,
         { c with run_entry := some entry2 },
         ⟨(finishPost enc entry2 cout metrics sf1 runs1 st.metrics st.ctr).2.1,
          (finishPost enc entry2 cout metrics sf1 runs1 st.metrics st.ctr).2.2.1,
          fs1,
          (finishPost enc entry2 cout metrics sf1 runs1 st.metrics st.ctr).2.2.2.1⟩,
         trS ++ trI ++ (finishPost enc entry2 cout metrics sf1 runs1 st.metrics st.ctr).2.2.2.2) := by
  rcases hskel with ⟨hov, rfl⟩ | ⟨iv, dov, hov, hre, rfl⟩ <;>
    rcases hsrc with ⟨rfl, rfl, rfl, rfl⟩ | ⟨dir, rfl, hS⟩ <;>
    rw [hov] at hins
  · simp only [finished_event, hov, hins]
  · simp only [finished_event, hov, hS, hins]
  · simp only [finished_event, hov, hre, Option.isSome_none, Bool.false_eq_true, if_false,
      hins]
  · simp only [finished_event, hov, hre, Option.isSome_none, Bool.false_eq_true, if_false,
      hS, hins]

theorem findMetric_pushFirst_isNone (ms : List (MetricDoc σ υ τ)) (rid : Option Int)
    (k : String) (b : Batch σ υ τ) (rid2 : Option Int) (k2 : String) :
    (findMetric (pushFirst ms rid k b) rid2 k2).isNone
      = (findMetric ms rid2 k2).isNone := by
  induction ms with
  | nil => rfl
  | cons m rest ih =>
    rw [pushFirst_cons]
    by_cases hp : m.run_id = rid ∧ m.name = k
    · rw [if_pos hp, findMetric_cons, findMetric_cons]
      by_cases hq : m.run_id = rid2 ∧ m.name = k2
      · rw [if_pos (by exact hq), if_pos hq]
        rfl
      · rw [if_neg (by exact hq), if_neg hq]
    · rw [if_neg hp, findMetric_cons, findMetric_cons]
      by_cases hq : m.run_id = rid2 ∧ m.name = k2
      · rw [if_pos hq, if_pos hq]
      · rw [if_neg hq, if_neg hq]
        exact ih


theorem findMetric_append_other (ms : List (MetricDoc σ υ τ)) (md : MetricDoc σ υ τ)
    (rid2 : Option Int) (k2 : String) (hname : md.name ≠ k2) :
    findMetric (ms ++ [md]) rid2 k2 = findMetric ms rid2 k2 := by
  induction ms with
  | nil =>
    have : ¬ (md.run_id = rid2 ∧ md.name = k2) := fun hc => hname hc.2
    simp only [List.nil_append, findMetric_cons, if_neg this]
  | cons m rest ih =>
    rw [List.cons_append, findMetric_cons, findMetric_cons]
    by_cases hq : m.run_id = rid2 ∧ m.name = k2
    · rw [if_pos hq, if_pos hq]
    · rw [if_neg hq, if_neg hq]
      exact ih

theorem mergeMetrics_cons_new (ms : List (MetricDoc σ υ τ)) (ctr : Nat) (rid : Option Int)
    (k : String) (b : Batch σ υ τ) (rest : List (String × Batch σ υ τ))
    (hf : findMetric ms rid k = none) :
    mergeMetrics ms ctr rid ((k, b) :: rest)
      = ((k, ctr) :: (mergeMetrics (ms ++ [⟨ctr, rid, k, b.steps, b.values, b.timestamps⟩])
            (ctr + 1) rid rest).1,
         (mergeMetrics (ms ++ [⟨ctr, rid, k, b.steps, b.values, b.timestamps⟩])
            (ctr + 1) rid rest).2.1,
         (mergeMetrics (ms ++ [⟨ctr, rid, k, b.steps, b.values, b.timestamps⟩])
            (ctr + 1) rid rest).2.2.1,
         Ev.metricUpsert rid k true
           :: (mergeMetrics (ms ++ [⟨ctr, rid, k, b.steps, b.values, b.timestamps⟩])
              (ctr + 1) rid rest).2.2.2) := by
  simp only [mergeMetrics, metricsUpsert, hf]

theorem mergeMetrics_cons_old (ms : List (MetricDoc σ υ τ)) (ctr : Nat) (rid : Option Int)
    (k : String) (b : Batch σ υ τ) (rest : List (String × Batch σ υ τ))
    (m0 : MetricDoc σ υ τ) (hf : findMetric ms rid k = some m0) :
    mergeMetrics ms ctr rid ((k, b) :: rest)
      = ((mergeMetrics (pushFirst ms rid k b) ctr rid rest).1,
         (mergeMetrics (pushFirst ms rid k b) ctr rid rest).2.1,
         (mergeMetrics (pushFirst ms rid k b) ctr rid rest).2.2.1,
         Ev.metricUpsert rid k false
           :: (mergeMetrics (pushFirst ms rid k b) ctr rid rest).2.2.2) := by
  simp only [mergeMetrics, metricsUpsert, hf]

theorem mergeMetrics_names (ms : List (MetricDoc σ υ τ)) (ctr : Nat) (rid : Option Int)
    (l : List (String × Batch σ υ τ)) (hnd : (l.map (fun e => e.1)).Nodup) :
    (mergeMetrics ms ctr rid l).1.map (fun e => e.1)
      = (l.map (fun e => e.1)).filter (fun k => (findMetric ms rid k).isNone) := by
  induction l generalizing ms ctr with
  | nil => rfl
  | cons kb rest ih =>
    cases kb with
    | mk k b =>
      simp only [List.map_cons] at hnd
      rcases List.nodup_cons.mp hnd with ⟨hk, hnd'⟩
      cases hf : findMetric ms rid k with
      | none =>
        rw [mergeMetrics_cons_new ms ctr rid k b rest hf]
        have hih := ih (ms ++ [⟨ctr, rid, k, b.steps, b.values, b.timestamps⟩]) (ctr + 1) hnd'
        simp only [List.map_cons, hih]
        have hcong : ∀ x ∈ rest.map (fun e => e.1),
            (findMetric (ms ++ [(⟨ctr, rid, k, b.steps, b.values, b.timestamps⟩ :
                MetricDoc σ υ τ)]) rid x).isNone
              = (findMetric ms rid x).isNone := by
          intro x hx
          have hxk : (⟨ctr, rid, k, b.steps, b.values, b.timestamps⟩ :
              MetricDoc σ υ τ).name ≠ x := by
            intro he
            exact hk (by rw [← he] at hx; exact hx)
          rw [findMetric_append_other ms _ rid x hxk]
        rw [List.filter_congr hcong, List.filter_cons]
        have : (findMetric ms rid k).isNone = true := by rw [hf]; rfl
        simp only [this, if_true]
      | some m0 =>
        rw [mergeMetrics_cons_old ms ctr rid k b rest m0 hf]
        have hih := ih (pushFirst ms rid k b) ctr hnd'
        rw [hih]
        have hcong : ∀ x ∈ rest.map (fun e => e.1),
            (findMetric (pushFirst ms rid k b) rid x).isNone
              = (findMetric ms rid x).isNone := by
          intro x hx
          exact findMetric_pushFirst_isNone ms rid k b rid x
        rw [List.filter_congr hcong, List.map_cons, List.filter_cons]
        have : (findMetric ms rid k).isNone = false := by rw [hf]; rfl
        simp only [this, Bool.false_eq_true, if_false]

theorem pushFirst_preserves_keys (ms : List (MetricDoc σ υ τ)) (rid : Option Int)
    (k : String) (b : Batch σ υ τ) :
    ∀ md ∈ ms, ∃ md' ∈ pushFirst ms rid k b,
      md'.oid = md.oid ∧ md'.name = md.name ∧ md'.run_id = md.run_id := by
  induction ms with
  | nil => intro md hmd; cases hmd
  | cons m rest ih =>
    intro md hmd
    rw [pushFirst_cons]
    by_cases hp : m.run_id = rid ∧ m.name = k
    · rw [if_pos hp]
      rcases List.mem_cons.mp hmd with rfl | hmd'
      · exact ⟨_, List.mem_cons_self _ _, rfl, rfl, rfl⟩
      · exact ⟨md, List.mem_cons_of_mem _ hmd', rfl, rfl, rfl⟩
    · rw [if_neg hp]
      rcases List.mem_cons.mp hmd with rfl | hmd'
      · exact ⟨md, List.mem_cons_self _ _, rfl, rfl, rfl⟩
      · rcases ih md hmd' with ⟨md', hmem, h1, h2, h3⟩
        exact ⟨md', List.mem_cons_of_mem _ hmem, h1, h2, h3⟩

theorem mergeMetrics_preserves_keys (ms : List (MetricDoc σ υ τ)) (ctr : Nat)
    (rid : Option Int) (l : List (String × Batch σ υ τ)) :
    ∀ md ∈ ms, ∃ md' ∈ (mergeMetrics ms ctr rid l).2.1,
      md'.oid = md.oid ∧ md'.name = md.name ∧ md'.run_id = md.run_id := by
  induction l generalizing ms ctr with
  | nil => intro md hmd; exact ⟨md, hmd, rfl, rfl, rfl⟩
  | cons kb rest ih =>
    cases kb with
    | mk k b =>
      intro md hmd
      cases hf : findMetric ms rid k with
      | none =>
        rw [mergeMetrics_cons_new ms ctr rid k b rest hf]
        exact ih _ (ctr + 1) md (List.mem_append_left _ hmd)
      | some m0 =>
        rw [mergeMetrics_cons_old ms ctr rid k b rest m0 hf]
        rcases pushFirst_preserves_keys ms rid k b md hmd with ⟨md', hmem, h1, h2, h3⟩
        rcases ih (pushFirst ms rid k b) ctr md' hmem with ⟨md'', hmem', h1', h2', h3'⟩
        exact ⟨md'', hmem', h1'.trans h1, h2'.trans h2, h3'.trans h3⟩

theorem mergeMetrics_registry_refs (ms : List (MetricDoc σ υ τ)) (ctr : Nat)
    (rid : Option Int) (l : List (String × Batch σ υ τ)) :
    ∀ e ∈ (mergeMetrics ms ctr rid l).1,
      ∃ md ∈ (mergeMetrics ms ctr rid l).2.1,
        md.oid = e.2 ∧ md.name = e.1 ∧ md.run_id = rid := by
  induction l generalizing ms ctr with
  | nil => intro e he; cases he
  | cons kb rest ih =>
    cases kb with
    | mk k b =>
      intro e he
      cases hf : findMetric ms rid k with
      | none =>
        rw [mergeMetrics_cons_new ms ctr rid k b rest hf] at he ⊢
        rcases List.mem_cons.mp he with rfl | he'
        · have hnew : (⟨ctr, rid, k, b.steps, b.values, b.timestamps⟩ : MetricDoc σ υ τ)
              ∈ ms ++ [⟨ctr, rid, k, b.steps, b.values, b.timestamps⟩] :=
            List.mem_append_right _ (List.mem_singleton.mpr rfl)
          rcases mergeMetrics_preserves_keys _ (ctr + 1) rid rest _ hnew with
            ⟨md', hmem, h1, h2, h3⟩
          exact ⟨md', hmem, h1, h2, h3⟩
        · exact ih _ (ctr + 1) e he'
      | some m0 =>
        rw [mergeMetrics_cons_old ms ctr rid k b rest m0 hf] at he ⊢
        exact ih (pushFirst ms rid k b) ctr e he

theorem insert_explicit_free (enc : Payload V → Bool) (d : RunDoc V) (x : Int)
    (intf : List (Int × RunDoc V)) (rest : List (List (Int × RunDoc V) × Bool))
    (sf : List Bool) (runs : List (Int × RunDoc V))
    (he : enc (.doc d) = true) (hmem : x ∉ idsOf (runs ++ intf)) :
    insert enc none (some x, d) ((intf, false) :: rest) sf runs
      = (.ok ((some x, d), (runs ++ intf) ++ [(x, d)]),
         [.insertAttempt (some x), .inserted x], sf) := by
  have hc : (idsOf (runs ++ intf)).contains x = false := by
    cases h : (idsOf (runs ++ intf)).contains x with
    | false => rfl
    | true => exact absurd (by simpa [List.elem_iff] using h) hmem
  simp only [insert, he, Bool.not_true, Bool.false_eq_true, if_false, hc]

theorem insert_overwrite_sfnil (enc : Payload V → Bool) (ow : Int × RunDoc V) (i : Int)
    (d : RunDoc V) (sched : List (List (Int × RunDoc V) × Bool))
    (runs : List (Int × RunDoc V)) (henc : enc (.doc d) = true) :
    insert enc (some ow) (some i, d) sched [] runs
      = (.ok ((some i, d), setFirst runs i (fun _ => d)), [.updateRun (some i)], []) := by
  simp only [insert, List.headD, List.tail, save_full_some enc i d runs henc]

/-- C2: a finished_event call with a non-empty metrics mapping leaves the
run document's info.metrics registry holding exactly one (name, generated
reference) entry for each metric whose upsert created its document — in
mapping order, each reference denoting the created metric document — and
no entry at all for any metric whose upsert appended to an
already-existing document. -/
theorem finished_event_registry_exactly_created (enc : Payload V → Bool)
    (henc : ∀ q, enc q = true) (md5Fn : V → String) (c : Client V) (st : Store V σ υ τ)
    (run : RunInput V) (cout : String) (config : V) (l : List (String × Batch σ υ τ))
    (dirOpt : Option (String → Option V)) (idArg : Option Int)
    (hl : l ≠ []) (hnd : (l.map (fun e => e.1)).Nodup)
    (hre : c.run_entry = none)
    (hov : ∀ iv dov, c.overwrite = some (iv, dov) → findRun st.runs iv = some dov)
    (hid : c.overwrite = none → ∀ x, idArg = some x → x ∉ idsOf st.runs)
    (hsrc : dirOpt = none ∨ (∃ dir si fs1 trS, dirOpt = some dir ∧
      save_sources md5Fn dir run.experiment.base_dir run.experiment.sources st.fs
        = (.ok si, fs1, trS))) :
    ∃ i dfin,
      (finished_event enc md5Fn c st run cout config (some l) dirOpt idArg
          [([], false)] []).1 = .ok (some i) ∧
      findRun (finished_event enc md5Fn c st run cout config (some l) dirOpt idArg
          [([], false)] []).2.2.1.runs i = some dfin ∧
      dfin.info.map (fun e => e.1)
        = (l.map (fun e => e.1)).filter
            (fun k => (findMetric st.metrics (some i) k).isNone) ∧
      (∀ k, (findMetric st.metrics (some i) k).isSome = true →
        ∀ e ∈ dfin.info, e.1 ≠ k) ∧
      (∀ e ∈ dfin.info,
        ∃ md ∈ (finished_event enc md5Fn c st run cout config (some l) dirOpt idArg
            [([], false)] []).2.2.1.metrics,
          md.oid = e.2 ∧ md.name = e.1 ∧ md.run_id = some i) := by
  obtain ⟨si, fs1, trS, hsrcd⟩ :
      ∃ si fs1 trS,
        (dirOpt = none ∧ si = ([] : List (String × Nat)) ∧ fs1 = st.fs
            ∧ trS = ([] : List Ev)) ∨
          (∃ dir, dirOpt = some dir ∧
            save_sources md5Fn dir run.experiment.base_dir run.experiment.sources st.fs
              = (.ok si, fs1, trS)) := by
    rcases hsrc with rfl | ⟨dir, si, fs1, trS, rfl, hS⟩
    · exact ⟨[], st.fs, [], Or.inl ⟨rfl, rfl, rfl, rfl⟩⟩
    · exact ⟨si, fs1, trS, Or.inr ⟨dir, rfl, hS⟩⟩
  have main : ∀ (i : Int) (eid : Option Int) (runs1 : List (Int × RunDoc V)) (trI : List Ev),
      ((c.overwrite = none ∧ eid = idArg) ∨
        (∃ iv dov, c.overwrite = some (iv, dov) ∧ c.run_entry = none ∧ eid = some iv)) →
      insert enc c.overwrite
          (eid, setSources (mkEntry run config) (.resolved si)) [([], false)] [] st.runs
        = (.ok ((some i, setSources (mkEntry run config) (.resolved si)), runs1), trI, []) →
      findRun runs1 i = some (setSources (mkEntry run config) (.resolved si)) →
      ∃ i dfin,
        (finished_event enc md5Fn c st run cout config (some l) dirOpt idArg
            [([], false)] []).1 = .ok (some i) ∧
        findRun (finished_event enc md5Fn c st run cout config (some l) dirOpt idArg
            [([], false)] []).2.2.1.runs i = some dfin ∧
        dfin.info.map (fun e => e.1)
          = (l.map (fun e => e.1)).filter
              (fun k => (findMetric st.metrics (some i) k).isNone) ∧
        (∀ k, (findMetric st.metrics (some i) k).isSome = true →
          ∀ e ∈ dfin.info, e.1 ≠ k) ∧
        (∀ e ∈ dfin.info,
          ∃ md ∈ (finished_event enc md5Fn c st run cout config (some l) dirOpt idArg
              [([], false)] []).2.2.1.metrics,
            md.oid = e.2 ∧ md.name = e.1 ∧ md.run_id = some i) := by
    intro i eid runs1 trI hskel hins hfind
    have hmain := finished_event_after_insert_ok enc md5Fn c st run cout config (some l)
      dirOpt idArg [([], false)] [] eid hskel si fs1 trS hsrcd
      (some i, setSources (mkEntry run config) (.resolved si)) runs1 trI [] hins
    rw [finishPost_metrics_char enc henc i (setSources (mkEntry run config) (.resolved si))
      cout l hl runs1 st.metrics st.ctr] at hmain
    have hnames := mergeMetrics_names st.metrics st.ctr (some i) l hnd
    refine ⟨i,
      applyPart (applyPart (setSources (mkEntry run config) (.resolved si))
          ⟨some (subFirstStr (some i) cout), none⟩)
        ⟨none, some (mergeMetrics st.metrics st.ctr (some i) l).1⟩,
      ?_, ?_, ?_, ?_, ?_⟩
    · rw [hmain]
    · rw [hmain]
      exact findRun_setFirst _ _ _ _ (findRun_setFirst _ _ _ _ hfind)
    · exact hnames
    · intro k hk e he hek
      have hmem : e.1 ∈ ((l.map (fun e => e.1)).filter
          (fun k => (findMetric st.metrics (some i) k).isNone)) := by
        rw [← hnames]
        exact List.mem_map.mpr ⟨e, he, rfl⟩
      have hnone := List.of_mem_filter hmem
      rw [hek] at hnone
      rcases Option.isSome_iff_exists.mp hk with ⟨v, hv⟩
      rw [hv] at hnone
      simp at hnone
    · intro e he
      have href := mergeMetrics_registry_refs st.metrics st.ctr (some i) l e he
      rw [hmain]
      exact href
  rcases hovc : c.overwrite with _ | ⟨iv, dov⟩
  · cases hidc : idArg with
    | none =>
      have he : enc (.doc (setSources (mkEntry run config) (.resolved si))) = true := henc _
      have hmemn : nextCandidate st.runs
          ∉ idsOf (st.runs ++ ([] : List (Int × RunDoc V))) := by
        rw [List.append_nil]
        exact nextCandidate_not_mem st.runs
      have hiL := insertLoop_cons enc (setSources (mkEntry run config) (.resolved si))
        [] false [] st.runs
      rw [if_neg (by simp [he]), if_neg (by simp), if_neg hmemn] at hiL
      have hins : insert enc none
          ((none : Option Int), setSources (mkEntry run config) (.resolved si))
          [([], false)] [] st.runs
          = (.ok ((some (nextCandidate st.runs), setSources (mkEntry run config)
                (.resolved si)),
              (st.runs ++ []) ++ [(nextCandidate st.runs,
                setSources (mkEntry run config) (.resolved si))]),
             [.insertAttempt (some (nextCandidate st.runs)),
              .inserted (nextCandidate st.runs)], []) := by
        rw [insert_autoinc_unfold, hiL]
      rw [hovc] at main
      rw [hidc] at main
      exact main (nextCandidate st.runs) none _ _ (Or.inl ⟨rfl, rfl⟩) hins
        (findRun_append_fresh _ _ _ hmemn)
    | some x =>
      have hx : x ∉ idsOf st.runs := hid hovc x hidc
      have hx' : x ∉ idsOf (st.runs ++ ([] : List (Int × RunDoc V))) := by
        rw [List.append_nil]
        exact hx
      have hins := insert_explicit_free enc (setSources (mkEntry run config) (.resolved si))
        x [] [] [] st.runs (henc _) hx'
      rw [hovc] at main
      rw [hidc] at main
      exact main x (some x) _ _ (Or.inl ⟨rfl, rfl⟩) hins
        (findRun_append_fresh _ _ _ hx')
  · have hovd := hov iv dov hovc
    have hins := insert_overwrite_sfnil enc (iv, dov) iv
      (setSources (mkEntry run config) (.resolved si)) [([], false)] st.runs (henc _)
    rw [hovc] at main
    refine main iv (some iv) _ _ (Or.inr ⟨iv, dov, rfl, hre, rfl⟩) hins ?_
    exact findRun_setFirst _ _ _ _ hovd

/-- C2 witness: ingesting one metric batch for `loss` into an empty store
registers exactly one entry for `loss` in the run document's info
registry, referencing the created metric document. -/
theorem finished_event_registry_witness :
    ∃ i dfin,
      (finished_event encT md5T ⟨none, none⟩ stT runT "x" 7 (some [("loss", batchT)])
          none none [([], false)] []).1 = .ok (some i) ∧
      findRun (finished_event encT md5T ⟨none, none⟩ stT runT "x" 7
          (some [("loss", batchT)]) none none [([], false)] []).2.2.1.runs i = some dfin ∧
      dfin.info.map (fun e => e.1)
        = ([("loss", batchT)].map (fun e => e.1)).filter
            (fun k => (findMetric stT.metrics (some i) k).isNone) ∧
      (∀ k, (findMetric stT.metrics (some i) k).isSome = true →
        ∀ e ∈ dfin.info, e.1 ≠ k) ∧
      (∀ e ∈ dfin.info,
        ∃ md ∈ (finished_event encT md5T ⟨none, none⟩ stT runT "x" 7
            (some [("loss", batchT)]) none none [([], false)] []).2.2.1.metrics,
          md.oid = e.2 ∧ md.name = e.1 ∧ md.run_id = some i) :=
  finished_event_registry_exactly_created encT (fun _ => rfl) md5T ⟨none, none⟩ stT runT
    "x" 7 [("loss", batchT)] none none (List.cons_ne_nil _ _) (by simp) rfl
    (fun _ _ h => Option.noConfusion h) (fun _ _ hx => Option.noConfusion hx) (Or.inl rfl)

/-- C4: on an overwrite-bound client, the first finished_event call
performs the overwrite — it succeeds with the target id, keeps the set of
stored run ids unchanged, and replaces the target document's mutable
sections — and leaves run_entry set, while any finished_event call on a
client whose run_entry is already set fails with DoubleOverwrite before
issuing any store operation: the client, the store and the run document
are returned exactly as they were, with an empty event trace. -/
theorem finished_event_overwrite_single_use (enc : Payload V → Bool)
    (henc : ∀ q, enc q = true) (md5Fn : V → String) (c c₂ : Client V)
    (st st₂ : Store V σ υ τ) (run run₂ : RunInput V) (cout cout₂ : String)
    (config config₂ : V) (metrics metrics₂ : Option (List (String × Batch σ υ τ)))
    (dirOpt dirOpt₂ : Option (String → Option V)) (idArg idArg₂ : Option Int)
    (sched₂ : List (List (Int × RunDoc V) × Bool)) (sf₂ : List Bool)
    (i : Int) (dov : RunDoc V) :
    (c.overwrite = some (i, dov) → c.run_entry = none → findRun st.runs i = some dov →
      (dirOpt = none ∨ (∃ dir si fs1 trS, dirOpt = some dir ∧
        save_sources md5Fn dir run.experiment.base_dir run.experiment.sources st.fs
          = (.ok si, fs1, trS))) →
      ((finished_event enc md5Fn c st run cout config metrics dirOpt idArg
          [([], false)] []).1 = .ok (some i) ∧
       (finished_event enc md5Fn c st run cout config metrics dirOpt idArg
          [([], false)] []).2.1.run_entry.isSome = true ∧
       idsOf (finished_event enc md5Fn c st run cout config metrics dirOpt idArg
          [([], false)] []).2.2.1.runs = idsOf st.runs ∧
       ∃ dfin, findRun (finished_event enc md5Fn c st run cout config metrics dirOpt idArg
            [([], false)] []).2.2.1.runs i = some dfin ∧
         dfin.config = config ∧ dfin.status = run.status ∧ dfin.result = run.result ∧
         dfin.captured_out = subFirstStr (some i) cout)) ∧
    (∀ ow e, c₂.overwrite = some ow → c₂.run_entry = some e →
      finished_event enc md5Fn c₂ st₂ run₂ cout₂ config₂ metrics₂ dirOpt₂ idArg₂ sched₂ sf₂
        = (.err .doubleOverwrite, c₂, st₂, [])) := by
  constructor
  · intro hov hre hfound hsrc
    obtain ⟨si, fs1, trS, hsrcd⟩ :
        ∃ si fs1 trS,
          (dirOpt = none ∧ si = ([] : List (String × Nat)) ∧ fs1 = st.fs
              ∧ trS = ([] : List Ev)) ∨
            (∃ dir, dirOpt = some dir ∧
              save_sources md5Fn dir run.experiment.base_dir run.experiment.sources st.fs
                = (.ok si, fs1, trS)) := by
      rcases hsrc with rfl | ⟨dir, si, fs1, trS, rfl, hS⟩
      · exact ⟨[], st.fs, [], Or.inl ⟨rfl, rfl, rfl, rfl⟩⟩
      · exact ⟨si, fs1, trS, Or.inr ⟨dir, rfl, hS⟩⟩
    have hins := insert_overwrite_sfnil enc (i, dov) i
      (setSources (mkEntry run config) (.resolved si)) [([], false)] st.runs (henc _)
    rw [← hov] at hins
    have hmain := finished_event_after_insert_ok enc md5Fn c st run cout config metrics
      dirOpt idArg [([], false)] [] (some i) (Or.inr ⟨i, dov, hov, hre, rfl⟩)
      si fs1 trS hsrcd (some i, setSources (mkEntry run config) (.resolved si))
      (setFirst st.runs i (fun _ => setSources (mkEntry run config) (.resolved si)))
      [.updateRun (some i)] [] hins
    have hfind : findRun
        (setFirst st.runs i (fun _ => setSources (mkEntry run config) (.resolved si))) i
        = some (setSources (mkEntry run config) (.resolved si)) :=
      findRun_setFirst _ _ _ _ hfound
    by_cases hm : metrics = none ∨ metrics = some ([] : List (String × Batch σ υ τ))
    · rw [finishPost_nometrics_char enc henc i
        (setSources (mkEntry run config) (.resolved si)) cout metrics hm _ st.metrics
        st.ctr] at hmain
      refine ⟨by rw [hmain], by rw [hmain]; rfl, ?_, ?_⟩
      · rw [hmain]
        show idsOf (setFirst _ _ _) = _
        rw [idsOf_setFirst, idsOf_setFirst]
      · refine ⟨applyPart (setSources (mkEntry run config) (.resolved si))
          ⟨some (subFirstStr (some i) cout), none⟩, ?_, rfl, rfl, rfl, rfl⟩
        rw [hmain]
        exact findRun_setFirst _ _ _ _ hfind
    · rcases metrics with _ | l
      · exact absurd (Or.inl rfl) hm
      · have hl : l ≠ [] := by
          intro he
          exact hm (Or.inr (by rw [he]))
        rw [finishPost_metrics_char enc henc i
          (setSources (mkEntry run config) (.resolved si)) cout l hl _ st.metrics
          st.ctr] at hmain
        refine ⟨by rw [hmain], by rw [hmain]; rfl, ?_, ?_⟩
        · rw [hmain]
          show idsOf (setFirst (setFirst _ _ _) _ _) = _
          rw [idsOf_setFirst, idsOf_setFirst, idsOf_setFirst]
        · refine ⟨applyPart (applyPart (setSources (mkEntry run config) (.resolved si))
              ⟨some (subFirstStr (some i) cout), none⟩)
            ⟨none, some (mergeMetrics st.metrics st.ctr (some i) l).1⟩, ?_, rfl, rfl, rfl, rfl⟩
          rw [hmain]
          exact findRun_setFirst _ _ _ _ (findRun_setFirst _ _ _ _ hfind)
  · intro ow e hov₂ hre₂
    cases ow with
    | mk iw dw =>
      simp only [finished_event, hov₂, hre₂, Option.isSome_some, if_true]

/-- C4 witness: a client bound to overwrite run 1 succeeds once (store id
set unchanged, document replaced), and a client whose run_entry is
already set is rejected with DoubleOverwrite, store and trace untouched. -/
theorem finished_event_overwrite_witness :
    ((finished_event encT md5T ⟨some (1, mkEntry runT 9), none⟩
        (⟨[(1, mkEntry runT 9)], [], ⟨[], 0⟩, 0⟩ : Store Nat Nat Nat Nat) runT "x" 7
        none none none [([], false)] []).1 = .ok (some 1) ∧
      idsOf (finished_event encT md5T ⟨some (1, mkEntry runT 9), none⟩
        (⟨[(1, mkEntry runT 9)], [], ⟨[], 0⟩, 0⟩ : Store Nat Nat Nat Nat) runT "x" 7
        none none none [([], false)] []).2.2.1.runs
        = idsOf [((1 : Int), mkEntry runT 9)]) ∧
    finished_event encT md5T ⟨some (1, docT), some (some 1, docT)⟩ stT runT "x" 7
        none none none [] []
      = (.err .doubleOverwrite, ⟨some (1, docT), some (some 1, docT)⟩, stT, []) := by
  have h := finished_event_overwrite_single_use encT (fun _ => rfl) md5T
    ⟨some (1, mkEntry runT 9), none⟩ ⟨some (1, docT), some (some 1, docT)⟩
    (⟨[(1, mkEntry runT 9)], [], ⟨[], 0⟩, 0⟩ : Store Nat Nat Nat Nat) stT
    runT runT "x" "x" 7 7 none none none none none none [] [] 1 (mkEntry runT 9)
  have h1 := h.1 rfl rfl (by rfl) (Or.inl rfl)
  exact ⟨⟨h1.1, h1.2.2.1⟩, h.2 (1, docT) (some 1, docT) rfl rfl⟩

theorem findBlob_some (l : List (Blob V)) (p h : String) (b : Blob V)
    (hf : findBlob l p h = some b) : b ∈ l ∧ b.filename = p ∧ b.md5 = h := by
  induction l with
  | nil => cases hf
  | cons x xs ih =>
    by_cases hx : x.filename = p ∧ x.md5 = h
    · have hb : (x.filename == p && x.md5 == h) = true := by simp [hx.1, hx.2]
      simp only [findBlob, hb, if_true] at hf
      injection hf with hf
      subst hf
      exact ⟨List.mem_cons_self _ _, hx.1, hx.2⟩
    · have hb : (x.filename == p && x.md5 == h) = false := by
        rcases not_and_or.mp hx with h1 | h1 <;> simp [h1]
      simp only [findBlob, hb, Bool.false_eq_true, if_false] at hf
      rcases ih hf with ⟨hm, h1, h2⟩
      exact ⟨List.mem_cons_of_mem _ hm, h1, h2⟩

theorem findBlob_none (l : List (Blob V)) (p h : String)
    (hf : findBlob l p h = none) : ∀ b ∈ l, ¬(b.filename = p ∧ b.md5 = h) := by
  induction l with
  | nil => intro b hb; cases hb
  | cons x xs ih =>
    intro b hb
    by_cases hx : x.filename = p ∧ x.md5 = h
    · have hbq : (x.filename == p && x.md5 == h) = true := by simp [hx.1, hx.2]
      simp only [findBlob, hbq, if_true] at hf
      cases hf
    · have hbq : (x.filename == p && x.md5 == h) = false := by
        rcases not_and_or.mp hx with h1 | h1 <;> simp [h1]
      simp only [findBlob, hbq, Bool.false_eq_true, if_false] at hf
      rcases List.mem_cons.mp hb with rfl | hb'
      · exact hx
      · exact ih hf b hb'

theorem pairwise_blob_key (l : List (Blob V)) (p h : String)
    (hu : List.Pairwise (fun a b => ¬(a.filename = b.filename ∧ a.md5 = b.md5)) l)
    (b1 b2 : Blob V) (hb1 : b1 ∈ l) (hb2 : b2 ∈ l)
    (hf1 : b1.filename = p) (hm1 : b1.md5 = h) (hf2 : b2.filename = p) (hm2 : b2.md5 = h) :
    b1 = b2 := by
  induction l with
  | nil => cases hb1
  | cons x xs ih =>
    rcases List.pairwise_cons.mp hu with ⟨hx, hxs⟩
    rcases List.mem_cons.mp hb1 with rfl | h1'
    · rcases List.mem_cons.mp hb2 with rfl | h2'
      · rfl
      · exact absurd ⟨hf1.trans hf2.symm, hm1.trans hm2.symm⟩ (hx b2 h2')
    · rcases List.mem_cons.mp hb2 with rfl | h2'
      · exact absurd ⟨hf2.trans hf1.symm, hm2.trans hm1.symm⟩ (hx b1 h1')
      · exact ih hxs h1' h2'

theorem resolvesTo_unique (fs : FS V) (hu : blobKeyUnique fs) (p h : String) (r r' : Nat)
    (h1 : ResolvesTo fs p h r) (h2 : ResolvesTo fs p h r') : r = r' := by
  rcases h1 with ⟨b1, hb1, hid1, hf1, hm1⟩
  rcases h2 with ⟨b2, hb2, hid2, hf2, hm2⟩
  have := pairwise_blob_key fs.blobs p h hu b1 b2 hb1 hb2 hf1 hm1 hf2 hm2
  rw [← hid1, ← hid2, this]

theorem resolvesTo_mono (fs fs2 : FS V) (nb : List (Blob V))
    (hg : fs2.blobs = fs.blobs ++ nb) (p h : String) (r : Nat)
    (hr : ResolvesTo fs p h r) : ResolvesTo fs2 p h r := by
  rcases hr with ⟨b, hb, h1, h2, h3⟩
  exact ⟨b, by rw [hg]; exact List.mem_append_left _ hb, h1, h2, h3⟩


theorem save_sources_resolves (md5Fn : V → String) (dir : String → Option V) (base : String)
    (s : List (String × String)) (fs fsF : FS V) (si : List (String × Nat)) (tr : List Ev)
    (hu : blobKeyUnique fs) (hc : hashConsistent md5Fn dir s)
    (h : save_sources md5Fn dir base s fs = (.ok si, fsF, tr)) :
    (∃ nb, fsF.blobs = fs.blobs ++ nb) ∧ blobKeyUnique fsF ∧
    (∀ jdx n hsh, s.get? jdx = some (n, hsh) →
      ∃ r, si.get? jdx = some (n, r) ∧ ResolvesTo fsF (pathJoin base n) hsh r) := by
  induction s generalizing fs si tr with
  | nil =>
    simp only [save_sources, Prod.mk.injEq, Except.ok.injEq] at h
    obtain ⟨h1, h2, h3⟩ := h
    subst h1
    subst h2
    refine ⟨⟨[], by simp⟩, hu, ?_⟩
    intro jdx n hsh hj
    cases jdx <;> exact Option.noConfusion hj
  | cons nh rest ih =>
    obtain ⟨n, hsh⟩ := nh
    have hctail : hashConsistent md5Fn dir rest :=
      fun x hx => hc x (List.mem_cons_of_mem _ hx)
    cases hfind : fsFindOne fs (pathJoin base n) hsh with
    | some b =>
      obtain ⟨hbmem, hbfn, hbmd⟩ := findBlob_some fs.blobs (pathJoin base n) hsh b hfind
      rcases hrec : save_sources md5Fn dir base rest fs with ⟨res, fsx, trx⟩
      cases res with
      | error e =>
        simp only [save_sources, hfind, hrec, Prod.mk.injEq] at h
        exact Except.noConfusion h.1
      | ok six =>
        simp only [save_sources, hfind, hrec, Prod.mk.injEq, Except.ok.injEq] at h
        obtain ⟨hsi, hfs, htr⟩ := h
        subst hsi
        subst hfs
        rcases ih fs six trx hu hctail hrec with ⟨⟨nb, hg⟩, hu2, hres⟩
        refine ⟨⟨nb, hg⟩, hu2, ?_⟩
        intro jdx n' hsh' hj
        cases jdx with
        | zero =>
          simp only [List.get?] at hj
          injection hj with hj
          injection hj with hj1 hj2
          subst hj1
          subst hj2
          exact ⟨b.id, rfl, resolvesTo_mono fs fsx nb hg _ _ _ ⟨b, hbmem, rfl, hbfn, hbmd⟩⟩
        | succ j =>
          simp only [List.get?] at hj ⊢
          exact hres j n' hsh' hj
    | none =>
      cases hdir : dir n with
      | none =>
        simp only [save_sources, hfind, hdir, Prod.mk.injEq] at h
        exact Except.noConfusion h.1
      | some content =>
        have hmd5 : md5Fn content = hsh := hc (n, hsh) (List.mem_cons_self _ _) content hdir
        have hu1 : blobKeyUnique
            (⟨fs.blobs ++ [⟨fs.next, pathJoin base n, md5Fn content, content⟩],
              fs.next + 1⟩ : FS V) := by
          have hnone := findBlob_none fs.blobs (pathJoin base n) hsh hfind
          apply List.pairwise_append.mpr
          refine ⟨hu, List.pairwise_singleton _ _, ?_⟩
          intro a ha bb hbb
          rcases List.mem_singleton.mp hbb with rfl
          intro hcon
          exact hnone a ha ⟨hcon.1, by rw [hcon.2, hmd5]⟩
        rcases hrec : save_sources md5Fn dir base rest
            ⟨fs.blobs ++ [⟨fs.next, pathJoin base n, md5Fn content, content⟩], fs.next + 1⟩
          with ⟨res, fsx, trx⟩
        cases res with
        | error e =>
          simp only [save_sources, hfind, hdir, fsPut, hrec, Prod.mk.injEq] at h
          exact Except.noConfusion h.1
        | ok six =>
          simp only [save_sources, hfind, hdir, fsPut, hrec, Prod.mk.injEq,
            Except.ok.injEq] at h
          obtain ⟨hsi, hfs, htr⟩ := h
          subst hsi
          subst hfs
          rcases ih ⟨fs.blobs ++ [⟨fs.next, pathJoin base n, md5Fn content, content⟩],
              fs.next + 1⟩ six trx hu1 hctail hrec with ⟨⟨nb, hg⟩, hu2, hres⟩
          refine ⟨⟨⟨fs.next, pathJoin base n, md5Fn content, content⟩ :: nb, ?_⟩, hu2, ?_⟩
          · rw [hg]
            simp
          · intro jdx n' hsh' hj
            cases jdx with
            | zero =>
              simp only [List.get?] at hj
              injection hj with hj
              injection hj with hj1 hj2
              subst hj1
              subst hj2
              refine ⟨fs.next, rfl, resolvesTo_mono _ fsx nb hg _ _ _
                ⟨⟨fs.next, pathJoin base n, md5Fn content, content⟩, ?_, rfl, rfl, ?_⟩⟩
              · exact List.mem_append_right _ (List.mem_singleton.mpr rfl)
              · exact hmd5
            | succ j =>
              simp only [List.get?] at hj ⊢
              exact hres j n' hsh' hj

/-- C6: across two save_sources calls against the same blob store (the
same or different ingestion runs), every manifest entry resolves to a
reference denoting a blob stored under its (virtual path, content hash)
address, the store keeps at most one blob per such address — so the
file content is stored at most once per distinct (path, hash) — and any
two entries with the same virtual path and the same content hash resolve
to the same blob reference. -/
theorem save_sources_dedups_by_path_and_hash (md5Fn : V → String)
    (dir1 dir2 : String → Option V) (b1 b2 : String)
    (s1 s2 : List (String × String)) (fs0 fs1 fs2 : FS V)
    (si1 si2 : List (String × Nat)) (tr1 tr2 : List Ev)
    (hu : blobKeyUnique fs0)
    (hc1 : hashConsistent md5Fn dir1 s1) (hc2 : hashConsistent md5Fn dir2 s2)
    (h1 : save_sources md5Fn dir1 b1 s1 fs0 = (.ok si1, fs1, tr1))
    (h2 : save_sources md5Fn dir2 b2 s2 fs1 = (.ok si2, fs2, tr2)) :
    blobKeyUnique fs2 ∧
    (∀ jdx n hsh, s1.get? jdx = some (n, hsh) →
      ∃ r, si1.get? jdx = some (n, r) ∧ ResolvesTo fs2 (pathJoin b1 n) hsh r) ∧
    (∀ jdx n hsh, s2.get? jdx = some (n, hsh) →
      ∃ r, si2.get? jdx = some (n, r) ∧ ResolvesTo fs2 (pathJoin b2 n) hsh r) ∧
    (∀ p hsh r r', ResolvesTo fs2 p hsh r → ResolvesTo fs2 p hsh r' → r = r') ∧
    (∀ j k n n' hsh r r', s1.get? j = some (n, hsh) → s2.get? k = some (n', hsh) →
      pathJoin b1 n = pathJoin b2 n' →
      si1.get? j = some (n, r) → si2.get? k = some (n', r') → r = r') := by
  rcases save_sources_resolves md5Fn dir1 b1 s1 fs0 fs1 si1 tr1 hu hc1 h1 with
    ⟨⟨nb1, hg1⟩, hu1, hres1⟩
  rcases save_sources_resolves md5Fn dir2 b2 s2 fs1 fs2 si2 tr2 hu1 hc2 h2 with
    ⟨⟨nb2, hg2⟩, hu2, hres2⟩
  have hres1' : ∀ jdx n hsh, s1.get? jdx = some (n, hsh) →
      ∃ r, si1.get? jdx = some (n, r) ∧ ResolvesTo fs2 (pathJoin b1 n) hsh r := by
    intro jdx n hsh hj
    rcases hres1 jdx n hsh hj with ⟨r, hr1, hr2⟩
    exact ⟨r, hr1, resolvesTo_mono fs1 fs2 nb2 hg2 _ _ _ hr2⟩
  refine ⟨hu2, hres1', hres2, fun p hsh r r' ha hb => resolvesTo_unique fs2 hu2 p hsh r r' ha hb, ?_⟩
  intro j k n n' hsh r r' hj hk hpath hsj hsk
  rcases hres1' j n hsh hj with ⟨ra, hra1, hra2⟩
  rcases hres2 k n' hsh hk with ⟨rb, hrb1, hrb2⟩
  have hara : ra = r := by
    rw [hra1] at hsj
    injection hsj with hsj
    injection hsj with hsj1 hsj2
  have hbrb : rb = r' := by
    rw [hrb1] at hsk
    injection hsk with hsk
    injection hsk with hsk1 hsk2
  rw [← hara, ← hbrb]
  exact resolvesTo_unique fs2 hu2 (pathJoin b1 n) hsh ra rb hra2
    (by rw [hpath]; exact hrb2)

/-- C6 witness: two runs both listing a.py with hash "10": the second
call reuses the blob stored by the first, both entries resolve to blob
reference 0, and the store holds a single blob for that address. -/
theorem save_sources_dedup_witness :
    blobKeyUnique (⟨[⟨0, "/exp/a.py", "10", 10⟩], 1⟩ : FS Nat) ∧
    (∀ j k n n' hsh r r',
      ([("a.py", "10")] : List (String × String)).get? j = some (n, hsh) →
      ([("a.py", "10")] : List (String × String)).get? k = some (n', hsh) →
      pathJoin "/exp" n = pathJoin "/exp" n' →
      ([("a.py", (0 : Nat))] : List (String × Nat)).get? j = some (n, r) →
      ([("a.py", (0 : Nat))] : List (String × Nat)).get? k = some (n', r') → r = r') := by
  have hc : hashConsistent md5T dirT [("a.py", "10")] := by
    intro nh hnh cc hcc
    rcases List.mem_singleton.mp hnh with rfl
    simp only [dirT, if_pos rfl] at hcc
    injection hcc with hcc
    subst hcc
    rfl
  have h := save_sources_dedups_by_path_and_hash md5T dirT dirT "/exp" "/exp"
    [("a.py", "10")] [("a.py", "10")] (⟨[], 0⟩ : FS Nat)
    (⟨[⟨0, "/exp/a.py", "10", 10⟩], 1⟩ : FS Nat)
    (⟨[⟨0, "/exp/a.py", "10", 10⟩], 1⟩ : FS Nat)
    [("a.py", 0)] [("a.py", 0)] [.fsFind "/exp/a.py" "10", .fsPutEv "/exp/a.py"]
    [.fsFind "/exp/a.py" "10"] List.Pairwise.nil hc hc rfl rfl
  exact ⟨h.1, h.2.2.2.2⟩

theorem save_sources_error_char (md5Fn : V → String) (dir : String → Option V)
    (base : String) (s : List (String × String)) (fs : FS V)
    (e : ObsError) (fs' : FS V) (tr : List Ev)
    (h : save_sources md5Fn dir base s fs = (.error e, fs', tr)) :
    e = .missingSourceFile ∧ ∃ jdx n hsh, s.get? jdx = some (n, hsh) ∧ dir n = none := by
  induction s generalizing fs fs' tr with
  | nil =>
    simp only [save_sources, Prod.mk.injEq] at h
    exact Except.noConfusion h.1
  | cons nh rest ih =>
    obtain ⟨n, hsh⟩ := nh
    cases hfind : fsFindOne fs (pathJoin base n) hsh with
    | some b =>
      rcases hrec : save_sources md5Fn dir base rest fs with ⟨res, fsx, trx⟩
      cases res with
      | error e2 =>
        simp only [save_sources, hfind, hrec, Prod.mk.injEq] at h
        obtain ⟨h1, h2, h3⟩ := h
        injection h1 with h1
        subst h1
        rcases ih fs fsx trx hrec with ⟨he, jdx, n', hsh', hj, hd⟩
        exact ⟨he, jdx + 1, n', hsh', by simpa [List.get?] using hj, hd⟩
      | ok six =>
        simp only [save_sources, hfind, hrec, Prod.mk.injEq] at h
        exact Except.noConfusion h.1
    | none =>
      cases hdir : dir n with
      | none =>
        simp only [save_sources, hfind, hdir, Prod.mk.injEq] at h
        obtain ⟨h1, h2, h3⟩ := h
        injection h1 with h1
        subst h1
        exact ⟨rfl, 0, n, hsh, rfl, hdir⟩
      | some content =>
        rcases hrec : save_sources md5Fn dir base rest
            ⟨fs.blobs ++ [⟨fs.next, pathJoin base n, md5Fn content, content⟩], fs.next + 1⟩
          with ⟨res, fsx, trx⟩
        cases res with
        | error e2 =>
          simp only [save_sources, hfind, hdir, fsPut, hrec, Prod.mk.injEq] at h
          obtain ⟨h1, h2, h3⟩ := h
          injection h1 with h1
          subst h1
          rcases ih _ fsx trx hrec with ⟨he, jdx, n', hsh', hj, hd⟩
          exact ⟨he, jdx + 1, n', hsh', by simpa [List.get?] using hj, hd⟩
        | ok six =>
          simp only [save_sources, hfind, hdir, fsPut, hrec, Prod.mk.injEq] at h
          exact Except.noConfusion h.1

/-- C9: when a manifest-listed source file is absent from the snapshot
directory (and no matching blob exists), source resolution fails with
MissingSourceFile; finished_event then fails before the base run document
is inserted: the runs and metrics collections are exactly as before, so
neither a partial source list nor a run document is persisted.
save_sources errors are always MissingSourceFile errors caused by a
listed file absent from the directory, and an absent first entry with no
matching blob does fail. -/
theorem finished_event_missing_source_aborts (enc : Payload V → Bool)
    (md5Fn : V → String) (c : Client V) (st : Store V σ υ τ) (run : RunInput V)
    (cout : String) (config : V) (metrics : Option (List (String × Batch σ υ τ)))
    (dir : String → Option V) (idArg : Option Int)
    (sched : List (List (Int × RunDoc V) × Bool)) (sf : List Bool)
    (e : ObsError) (fs1 : FS V) (trX : List Ev)
    (hok : c.overwrite = none ∨ c.run_entry = none)
    (hS : save_sources md5Fn dir run.experiment.base_dir run.experiment.sources st.fs
        = (.error e, fs1, trX)) :
    ((finished_event enc md5Fn c st run cout config metrics (some dir) idArg sched sf).1
        = .err e ∧
     (finished_event enc md5Fn c st run cout config metrics (some dir) idArg
        sched sf).2.2.1.runs = st.runs ∧
     (finished_event enc md5Fn c st run cout config metrics (some dir) idArg
        sched sf).2.2.1.metrics = st.metrics) ∧
    (∀ (bb : String) (s : List (String × String)) (fsx fs' : FS V) (e' : ObsError)
        (tr' : List Ev),
      save_sources md5Fn dir bb s fsx = (.error e', fs', tr') →
      e' = .missingSourceFile ∧
        ∃ jdx n hsh, s.get? jdx = some (n, hsh) ∧ dir n = none) ∧
    (∀ (bb n hsh : String) (rest : List (String × String)) (fsx : FS V),
      dir n = none → fsFindOne fsx (pathJoin bb n) hsh = none →
      (save_sources md5Fn dir bb ((n, hsh) :: rest) fsx).1
        = .error .missingSourceFile) := by
  refine ⟨?_, ?_, ?_⟩
  · rcases hok with hov | hre
    · simp only [finished_event, hov, hS]
      exact ⟨trivial, trivial, trivial⟩
    · cases hc : c.overwrite with
      | none =>
        simp only [finished_event, hc, hS]
        exact ⟨trivial, trivial, trivial⟩
      | some ivd =>
        cases ivd with
        | mk iv dov =>
          simp only [finished_event, hc, hre, Option.isSome_none, Bool.false_eq_true,
            if_false, hS]
          exact ⟨trivial, trivial, trivial⟩
  · intro bb s fsx fs' e' tr' hx
    exact save_sources_error_char md5Fn dir bb s fsx e' fs' tr' hx
  · intro bb n hsh rest fsx hdir hfind
    simp only [save_sources, hfind, hdir]

/-- C9 witness: a manifest listing a.py against an empty snapshot
directory makes finished_event fail with MissingSourceFile, leaving the
runs and metrics collections of the store untouched. -/
theorem finished_event_missing_source_witness :
    (finished_event encT md5T ⟨none, none⟩ stT runT "x" 7 none (some dirEmpty) none
        [([], false)] []).1 = .err .missingSourceFile ∧
    (finished_event encT md5T ⟨none, none⟩ stT runT "x" 7 none (some dirEmpty) none
        [([], false)] []).2.2.1.runs = stT.runs ∧
    (finished_event encT md5T ⟨none, none⟩ stT runT "x" 7 none (some dirEmpty) none
        [([], false)] []).2.2.1.metrics = stT.metrics :=
  (finished_event_missing_source_aborts encT md5T ⟨none, none⟩ stT runT "x" 7 none
    dirEmpty none [([], false)] [] .missingSourceFile ⟨[], 0⟩
    [.fsFind "/exp/a.py" "10"] (Or.inl rfl) rfl).1

theorem insertLoop_rejected (enc : Payload V → Bool) (d : RunDoc V)
    (sched : List (List (Int × RunDoc V) × Bool)) (runs : List (Int × RunDoc V))
    (h : Ev.rejectedDoc ∈ (insertLoop enc d sched runs).2) :
    (insertLoop enc d sched runs).1 = .err .nameError := by
  induction sched generalizing runs with
  | nil => simp [insertLoop] at h
  | cons sc rest ih =>
    obtain ⟨intf, fault⟩ := sc
    rw [insertLoop_cons] at h ⊢
    by_cases he : enc (.doc d) = false
    · rw [if_pos he]
    · rw [if_neg he] at h ⊢
      by_cases hf : fault = true
      · rw [if_pos hf] at h
        simp at h
      · rw [if_neg hf] at h ⊢
        by_cases hm : nextCandidate runs ∈ idsOf (runs ++ intf)
        · rw [if_pos hm] at h ⊢
          simp only [List.mem_cons] at h
          rcases h with h | h | h
          · cases h
          · cases h
          · exact ih (runs ++ intf) h
        · rw [if_neg hm] at h
          simp at h

theorem insert_rejected (enc : Payload V → Bool) (ow : Option (Int × RunDoc V))
    (entry : Option Int × RunDoc V) (sched : List (List (Int × RunDoc V) × Bool))
    (sf : List Bool) (runs : List (Int × RunDoc V))
    (h : Ev.rejectedDoc ∈ (insert enc ow entry sched sf runs).2.1) :
    (insert enc ow entry sched sf runs).1 = .err .nameError := by
  cases ow with
  | some ow0 =>
    rcases hs : save enc (sf.headD false) entry ⟨none, none⟩ runs with ⟨res, trs⟩
    have hiff := (save_rejected_iff enc (sf.headD false) entry ⟨none, none⟩ runs).1
    rw [hs] at hiff
    cases res with
    | ok runs' =>
      simp only [insert, hs] at h ⊢
      exact absurd (hiff.mp h) (by simp)
    | error e =>
      simp only [insert, hs] at h ⊢
      have he := hiff.mp h
      injection he with he
      rw [he]
  | none =>
    obtain ⟨eid, d⟩ := entry
    cases eid with
    | none =>
      simp only [insert] at h ⊢
      exact insertLoop_rejected enc d sched runs h
    | some x =>
      cases sched with
      | nil => simp [insert] at h
      | cons sc rest =>
        obtain ⟨intf, fault⟩ := sc
        simp only [insert] at h ⊢
        by_cases he : enc (.doc d) = false
        · simp only [he, Bool.not_false, if_true]
        · have he' : enc (.doc d) = true := by
            cases hq : enc (.doc d) with
            | false => exact absurd hq he
            | true => rfl
          simp only [he', Bool.not_true, Bool.false_eq_true, if_false] at h
          cases fault with
          | true => simp at h
          | false =>
            simp only [Bool.false_eq_true, if_false] at h
            by_cases hm : (idsOf (runs ++ intf)).contains x = true
            · rw [if_pos hm] at h
              simp at h
            · rw [if_neg hm] at h
              simp at h

theorem save_sources_no_rejected (md5Fn : V → String) (dir : String → Option V)
    (base : String) (s : List (String × String)) (fs : FS V) :
    Ev.rejectedDoc ∉ (save_sources md5Fn dir base s fs).2.2 := by
  induction s generalizing fs with
  | nil => simp [save_sources]
  | cons nh rest ih =>
    obtain ⟨n, hsh⟩ := nh
    cases hfind : fsFindOne fs (pathJoin base n) hsh with
    | some b =>
      rcases hrec : save_sources md5Fn dir base rest fs with ⟨res, fsx, trx⟩
      have ihx := ih fs
      rw [hrec] at ihx
      cases res with
      | error e =>
        simp only [save_sources, hfind, hrec]
        simp [ihx]
      | ok six =>
        simp only [save_sources, hfind, hrec]
        simp [ihx]
    | none =>
      cases hdir : dir n with
      | none => simp [save_sources, hfind, hdir]
      | some content =>
        rcases hrec : save_sources md5Fn dir base rest
            ⟨fs.blobs ++ [⟨fs.next, pathJoin base n, md5Fn content, content⟩], fs.next + 1⟩
          with ⟨res, fsx, trx⟩
        have ihx := ih ⟨fs.blobs ++ [⟨fs.next, pathJoin base n, md5Fn content, content⟩],
          fs.next + 1⟩
        rw [hrec] at ihx
        cases res with
        | error e =>
          simp only [save_sources, hfind, hdir, fsPut, hrec]
          simp [ihx]
        | ok six =>
          simp only [save_sources, hfind, hdir, fsPut, hrec]
          simp [ihx]

theorem mergeMetrics_no_rejected (ms : List (MetricDoc σ υ τ)) (ctr : Nat)
    (rid : Option Int) (l : List (String × Batch σ υ τ)) :
    Ev.rejectedDoc ∉ (mergeMetrics ms ctr rid l).2.2.2 := by
  induction l generalizing ms ctr with
  | nil => simp [mergeMetrics]
  | cons kb rest ih =>
    obtain ⟨k, b⟩ := kb
    cases hf : findMetric ms rid k with
    | none =>
      rw [mergeMetrics_cons_new ms ctr rid k b rest hf]
      simp only [List.mem_cons]
      intro hx
      rcases hx with hx | hx
      · cases hx
      · exact ih _ _ hx
    | some m0 =>
      rw [mergeMetrics_cons_old ms ctr rid k b rest m0 hf]
      simp only [List.mem_cons]
      intro hx
      rcases hx with hx | hx
      · cases hx
      · exact ih _ _ hx

theorem finishPost_rejected (enc : Payload V → Bool) (entry : Option Int × RunDoc V)
    (cout : String) (metrics : Option (List (String × Batch σ υ τ))) (sf : List Bool)
    (runs1 : List (Int × RunDoc V)) (ms : List (MetricDoc σ υ τ)) (ctr : Nat)
    (h : Ev.rejectedDoc ∈ (finishPost enc entry cout metrics sf runs1 ms ctr).2.2.2.2) :
    (finishPost enc entry cout metrics sf runs1 ms ctr).1 = .err .nameError := by
  rcases hs1 : save enc (sf.headD false) entry
      ⟨some (subFirstStr entry.1 cout), none⟩ runs1 with ⟨res1, tr1⟩
  have hiff1 := (save_rejected_iff enc (sf.headD false) entry
    ⟨some (subFirstStr entry.1 cout), none⟩ runs1).1
  rw [hs1] at hiff1
  cases res1 with
  | error e =>
    simp only [finishPost, hs1] at h ⊢
    have he := hiff1.mp h
    injection he with he
    rw [he]
  | ok runs2 =>
    cases metrics with
    | none =>
      simp only [finishPost, hs1] at h ⊢
      exact absurd (hiff1.mp h) (by simp)
    | some l =>
      by_cases hl : l.isEmpty = true
      · simp only [finishPost, hs1, if_pos hl] at h ⊢
        exact absurd (hiff1.mp h) (by simp)
      · rcases hs2 : save enc (sf.tail.headD false) entry
            ⟨none, some (mergeMetrics ms ctr entry.1 l).1⟩ runs2 with ⟨res2, tr2⟩
        have hiff2 := (save_rejected_iff enc (sf.tail.headD false) entry
          ⟨none, some (mergeMetrics ms ctr entry.1 l).1⟩ runs2).1
        rw [hs2] at hiff2
        cases res2 with
        | error e =>
          simp only [finishPost, hs1, if_neg hl, hs2] at h ⊢
          rcases List.mem_append.mp h with h' | h'
          · rcases List.mem_append.mp h' with h'' | h''
            · exact absurd (hiff1.mp h'') (by simp)
            · exact absurd h'' (mergeMetrics_no_rejected ms ctr entry.1 l)
          · have he := hiff2.mp h'
            injection he with he
            rw [he]
        | ok runs3 =>
          simp only [finishPost, hs1, if_neg hl, hs2] at h ⊢
          rcases List.mem_append.mp h with h' | h'
          · rcases List.mem_append.mp h' with h'' | h''
            · exact absurd (hiff1.mp h'') (by simp)
            · exact absurd h'' (mergeMetrics_no_rejected ms ctr entry.1 l)
          · exact absurd (hiff2.mp h') (by simp)

/-- C3 (documents the code bug): whenever the store rejects a payload as
unencodable (pymongo InvalidDocument) during the initial insert or during
any follow-up save, finished_event fails — the failure is surfaced, never
swallowed — but not with the UnserializableEntry error the spec promises:
the handler's `raise ObserverError(...)` references an undefined name, so
the call fails with a NameError. -/
theorem finished_event_invalid_document_raises_name_error (enc : Payload V → Bool)
    (md5Fn : V → String) (c : Client V) (st : Store V σ υ τ) (run : RunInput V)
    (cout : String) (config : V) (metrics : Option (List (String × Batch σ υ τ)))
    (dirOpt : Option (String → Option V)) (idArg : Option Int)
    (sched : List (List (Int × RunDoc V) × Bool)) (sf : List Bool)
    (h : Ev.rejectedDoc
      ∈ (finished_event enc md5Fn c st run cout config metrics dirOpt idArg
          sched sf).2.2.2) :
    (finished_event enc md5Fn c st run cout config metrics dirOpt idArg sched sf).1
      = .err .nameError ∧
    (finished_event enc md5Fn c st run cout config metrics dirOpt idArg sched sf).1
      ≠ .err .unserializable := by
  suffices hmain :
      (finished_event enc md5Fn c st run cout config metrics dirOpt idArg sched sf).1
        = .err .nameError by
    refine ⟨hmain, ?_⟩
    rw [hmain]
    simp
  have hcase : ∀ (eid : Option Int),
      (c.overwrite = none ∧ eid = idArg) ∨
        (∃ iv dov, c.overwrite = some (iv, dov) ∧ c.run_entry = none ∧ eid = some iv) →
      (finished_event enc md5Fn c st run cout config metrics dirOpt idArg sched sf).1
        = .err .nameError := by
    intro eid hskel
    obtain ⟨si, fs1, trS, hsrcd, hnosrc⟩ :
        ∃ (res : Except ObsError (List (String × Nat))) (fs1 : FS V) (trS : List Ev),
          ((dirOpt = none ∧ res = .ok [] ∧ fs1 = st.fs ∧ trS = ([] : List Ev)) ∨
            (∃ dir, dirOpt = some dir ∧
              save_sources md5Fn dir run.experiment.base_dir run.experiment.sources st.fs
                = (res, fs1, trS))) ∧ Ev.rejectedDoc ∉ trS := by
      cases dirOpt with
      | none => exact ⟨.ok [], st.fs, [], Or.inl ⟨rfl, rfl, rfl, rfl⟩, by simp⟩
      | some dir =>
        rcases hS : save_sources md5Fn dir run.experiment.base_dir
            run.experiment.sources st.fs with ⟨res, fs1, trS⟩
        refine ⟨res, fs1, trS, Or.inr ⟨dir, rfl, hS⟩, ?_⟩
        have := save_sources_no_rejected md5Fn dir run.experiment.base_dir
          run.experiment.sources st.fs
        rw [hS] at this
        exact this
    have hred : ∀ (P : Outcome (Option Int) × Client V × Store V σ υ τ × List Ev → Prop),
        (∀ e fsx trX,
          si = .error e →
          P (.err e, { c with run_entry := some (eid, mkEntry run config) },
            { st with fs := fsx }, trX) → True) → True := fun _ _ => trivial
    clear hred
    rcases hskel with ⟨hov, rfl⟩ | ⟨iv, dov, hov, hre, rfl⟩ <;>
      rcases hsrcd with ⟨rfl, rfl, rfl, rfl⟩ | ⟨dir, rfl, hS⟩
    · rcases hins : insert enc none
          (eid, setSources (mkEntry run config) (.resolved [])) sched sf st.runs
        with ⟨res, trI, sf1⟩
      have hrej := insert_rejected enc none
        (eid, setSources (mkEntry run config) (.resolved [])) sched sf st.runs
      rw [hins] at hrej
      cases res with
      | err e =>
        simp only [finished_event, hov, hins] at h ⊢
        rcases List.mem_append.mp h with h' | h'
        · simp at h'
        · have := hrej h'
          injection this with this
          rw [this]
      | stalled =>
        simp only [finished_event, hov, hins] at h
        rcases List.mem_append.mp h with h' | h'
        · simp at h'
        · exact absurd (hrej h') (by simp)
      | ok a =>
        obtain ⟨entry2, runs1⟩ := a
        simp only [finished_event, hov, hins] at h ⊢
        rcases List.mem_append.mp h with h' | h'
        · rcases List.mem_append.mp h' with h'' | h''
          · simp at h''
          · exact absurd (hrej h'') (by simp)
        · exact finishPost_rejected enc entry2 cout metrics sf1 runs1 st.metrics st.ctr h'
    · cases si with
      | error e0 =>
        simp only [finished_event, hov, hS] at h ⊢
        exact absurd h hnosrc
      | ok sl =>
        rcases hins : insert enc none
            (eid, setSources (mkEntry run config) (.resolved sl)) sched sf st.runs
          with ⟨res, trI, sf1⟩
        have hrej := insert_rejected enc none
          (eid, setSources (mkEntry run config) (.resolved sl)) sched sf st.runs
        rw [hins] at hrej
        cases res with
        | err e =>
          simp only [finished_event, hov, hS, hins] at h ⊢
          rcases List.mem_append.mp h with h' | h'
          · exact absurd h' hnosrc
          · have := hrej h'
            injection this with this
            rw [this]
        | stalled =>
          simp only [finished_event, hov, hS, hins] at h
          rcases List.mem_append.mp h with h' | h'
          · exact absurd h' hnosrc
          · exact absurd (hrej h') (by simp)
        | ok a =>
          obtain ⟨entry2, runs1⟩ := a
          simp only [finished_event, hov, hS, hins] at h ⊢
          rcases List.mem_append.mp h with h' | h'
          · rcases List.mem_append.mp h' with h'' | h''
            · exact absurd h'' hnosrc
            · exact absurd (hrej h'') (by simp)
          · exact finishPost_rejected enc entry2 cout metrics sf1 runs1 st.metrics st.ctr h'
    · rcases hins : insert enc (some (iv, dov))
          (some iv, setSources (mkEntry run config) (.resolved [])) sched sf st.runs
        with ⟨res, trI, sf1⟩
      have hrej := insert_rejected enc (some (iv, dov))
        (some iv, setSources (mkEntry run config) (.resolved [])) sched sf st.runs
      rw [hins] at hrej
      cases res with
      | err e =>
        simp only [finished_event, hov, hre, Option.isSome_none, Bool.false_eq_true,
          if_false, hins] at h ⊢
        rcases List.mem_append.mp h with h' | h'
        · simp at h'
        · have := hrej h'
          injection this with this
          rw [this]
      | stalled =>
        simp only [finished_event, hov, hre, Option.isSome_none, Bool.false_eq_true,
          if_false, hins] at h
        rcases List.mem_append.mp h with h' | h'
        · simp at h'
        · exact absurd (hrej h') (by simp)
      | ok a =>
        obtain ⟨entry2, runs1⟩ := a
        simp only [finished_event, hov, hre, Option.isSome_none, Bool.false_eq_true,
          if_false, hins] at h ⊢
        rcases List.mem_append.mp h with h' | h'
        · rcases List.mem_append.mp h' with h'' | h''
          · simp at h''
          · exact absurd (hrej h'') (by simp)
        · exact finishPost_rejected enc entry2 cout metrics sf1 runs1 st.metrics st.ctr h'
    · cases si with
      | error e0 =>
        simp only [finished_event, hov, hre, Option.isSome_none, Bool.false_eq_true,
          if_false, hS] at h ⊢
        exact absurd h hnosrc
      | ok sl =>
        rcases hins : insert enc (some (iv, dov))
            (some iv, setSources (mkEntry run config) (.resolved sl)) sched sf st.runs
          with ⟨res, trI, sf1⟩
        have hrej := insert_rejected enc (some (iv, dov))
          (some iv, setSources (mkEntry run config) (.resolved sl)) sched sf st.runs
        rw [hins] at hrej
        cases res with
        | err e =>
          simp only [finished_event, hov, hre, Option.isSome_none, Bool.false_eq_true,
            if_false, hS, hins] at h ⊢
          rcases List.mem_append.mp h with h' | h'
          · exact absurd h' hnosrc
          · have := hrej h'
            injection this with this
            rw [this]
        | stalled =>
          simp only [finished_event, hov, hre, Option.isSome_none, Bool.false_eq_true,
            if_false, hS, hins] at h
          rcases List.mem_append.mp h with h' | h'
          · exact absurd h' hnosrc
          · exact absurd (hrej h') (by simp)
        | ok a =>
          obtain ⟨entry2, runs1⟩ := a
          simp only [finished_event, hov, hre, Option.isSome_none, Bool.false_eq_true,
            if_false, hS, hins] at h ⊢
          rcases List.mem_append.mp h with h' | h'
          · rcases List.mem_append.mp h' with h'' | h''
            · exact absurd h'' hnosrc
            · exact absurd (hrej h'') (by simp)
          · exact finishPost_rejected enc entry2 cout metrics sf1 runs1 st.metrics st.ctr h'
  cases hov : c.overwrite with
  | none => exact hcase idArg (Or.inl ⟨hov, rfl⟩)
  | some ivd =>
    obtain ⟨iv, dov⟩ := ivd
    cases hre : c.run_entry with
    | some e =>
      simp only [finished_event, hov, hre, Option.isSome_some, if_true] at h
      simp at h
    | none => exact hcase (some iv) (Or.inr ⟨iv, dov, hov, hre, rfl⟩)

/-- C3 witness: with a store that rejects the run document as unencodable,
finished_event surfaces a NameError — not the promised UnserializableEntry
error — at a concrete input. -/
theorem finished_event_invalid_document_witness :
    (finished_event encRej md5T ⟨none, none⟩ stT runT "x" 7 none none none
        [([], false)] []).1 = .err .nameError ∧
    (finished_event encRej md5T ⟨none, none⟩ stT runT "x" 7 none none none
        [([], false)] []).1 ≠ .err .unserializable :=
  finished_event_invalid_document_raises_name_error encRej md5T ⟨none, none⟩ stT runT
    "x" 7 none none none [([], false)] [] (by decide)
